import Mathlib

/-!
gimple: a verification development of the service container.

Shallow embedding of `gimple.go`.

Modelling decisions.

* A `*Gimple` is an address `Ptr` into a heap of `Gimple` records; the
  methods mutate the record at that address, as the Go receiver does.
  A record always holds an initialised map, as the ones `New` makes.
* `map[string]Callable` is an association list with unique keys; the
  order of that list is not meaningful (Go leaves map order unspecified).
* Go function values are closures.  They are represented first-order:
  a function literal written by the caller is `Callable.lit n`, its
  body is looked up in an environment `Env`; the three closures
  the package itself builds (`Share`, `Protect`, `Extend`) are
  constructors carrying what the closure captures.  The variable `obj`
  captured by the closure of `Share` lives in a cell of the world that
  only this closure reads and writes.
* The body of a caller's literal is a program `Prog`: a sequence of steps
  `Act`, each a call of the package (`GetService`, `SetService`, `Raw`,
  `Share`, ...), a call of any function value, or a read or write of the
  caller's own variables (type `σ`), where every later step may depend on
  what the earlier ones returned.  So a factory can call back into the
  container and into any closure, itself included.
* Calls can nest without bound, so running a call takes a bound on the
  nesting depth: `perform env n` runs a call whose nested calls are at
  most `n` deep and yields `none` when that is not enough.  A result
  `some` is the result the Go code returns.
* A nil function value is not a `Callable`; the nil returned next to an
  error is `none` of `Option Callable`.
* Every call of a function value is recorded in `World.trace`, in order
  of the start of the call.  The trace is ghost state, there to state how
  often a factory runs.
-/

namespace gimple

/-- Address of a `Gimple` record (`*Gimple`). -/
abbrev Ptr := Nat

/-- Callbacks for `Extend`: `type ExtendCallable func(origin interface{}, context *Gimple) interface{}`.
Only the caller writes these, so they are all literals. -/
inductive ExtendCallable where
  | lit (n : Nat)
  deriving DecidableEq, Repr

/-- Function values of `type Callable func(context *Gimple) interface{}`. -/
inductive Callable where
  /-- function literal number `n` of the calling program -/
  | lit (n : Nat)
  /-- closure returned by `Share`: captures the variable `obj` and `callback` -/
  | share (obj : Nat) (callback : Callable)
  /-- closure returned by `Protect`: captures `callback` -/
  | protect (callback : Callable)
  /-- closure `extender` built by `Extend`: captures `factory` and `callback` -/
  | extender (factory : Callable) (callback : ExtendCallable)
  deriving DecidableEq, Repr

/-- The struct `math` of the test file. -/
structure math where
  a : Int
  b : Int
  deriving DecidableEq, Repr

/-- Wrap an integer into the range of Go's 64-bit `int`. -/
def wrapInt (n : Int) : Int := (n + 2 ^ 63) % 2 ^ 64 - 2 ^ 63

/-- Method `func (m *math) sum() int`. -/
def math.sum (m : math) : Int := wrapInt (m.a + m.b)

/-- Values of type `interface{}`. -/
inductive Value where
  | nil
  | str (s : String)
  | int (n : Int)
  | math (m : math)
  | callable (f : Callable)
  deriving DecidableEq, Repr

/-- Go's `error`, as made by `errors.New`: it carries its text. -/
structure error where
  msg : String
  deriving DecidableEq, Repr

/-- The call `errors.New(text)`. -/
def errors_New (text : String) : error := ⟨text⟩

/-- Struct `Gimple`: `values map[string]Callable`. -/
structure Gimple where
  values : AList (fun _ : String => Callable)

/-- The containers and the caller's own variables. -/
structure Store (σ : Type) where
  heap : Ptr → Gimple
  next : Ptr
  vars : σ

/-- One call of a function value: the function and its arguments. -/
inductive Event where
  | call (f : Callable) (context : Option Ptr)
  | callExt (f : ExtendCallable) (origin : Value) (context : Option Ptr)
  deriving DecidableEq, Repr

/-- Program state. -/
structure World (σ : Type) where
  store : Store σ
  /-- the variables `obj` captured by the closures of `Share` -/
  cells : Nat → Value
  nextCell : Nat
  /-- every call of a function value so far, oldest first -/
  trace : List Event

variable {σ : Type}

/-- The record behind a pointer. -/
def World.deref (w : World σ) (gimple : Ptr) : Gimple := w.store.heap gimple

/-- Replace the map of the record behind a pointer. -/
def World.setValues (w : World σ) (gimple : Ptr)
    (values : AList (fun _ : String => Callable)) : World σ :=
  { w with store := { w.store with heap := Function.update w.store.heap gimple ⟨values⟩ } }

/-- Append an event to the trace. -/
def World.log (w : World σ) (e : Event) : World σ :=
  { w with trace := w.trace ++ [e] }

/-- `func New() *Gimple`: a fresh record with an empty map. -/
def New (w : World σ) : Ptr × World σ :=
  (w.store.next,
   { w with store := { w.store with
       heap := Function.update w.store.heap w.store.next ⟨∅⟩
       next := w.store.next + 1 } })

/-- `SetService`: `gimple.values[id] = value`. -/
def SetService (gimple : Ptr) (id : String) (value : Callable) (w : World σ) : World σ :=
  w.setValues gimple ((w.deref gimple).values.insert id value)

/-- `GetService`: look `id` up; absent gives `nil` and an error, present
gives `value(gimple), nil`.  The parameter `apply` is what a call of a
function value does (below, `perform env n`); the call `value(gimple)`
may not return, and then neither does `GetService`. -/
def GetService (apply : Event → World σ → Option (Value × World σ))
    (gimple : Ptr) (id : String) (w : World σ) :
    Option ((Value × Option error) × World σ) :=
  match (w.deref gimple).values.lookup id with
  | none => some ((Value.nil, some (errors_New ("There is no service with id " ++ id))), w)
  | some value =>
    match apply (.call value (some gimple)) w with
    | none => none
    | some r => some ((r.1, none), r.2)

/-- `ServiceExists`: `_, ok := gimple.values[id]; return ok`. -/
def ServiceExists (gimple : Ptr) (id : String) (w : World σ) : Bool :=
  ((w.deref gimple).values.lookup id).isSome

/-- `UnsetService`: `delete(gimple.values, id)`. -/
def UnsetService (gimple : Ptr) (id : String) (w : World σ) : World σ :=
  w.setValues gimple ((w.deref gimple).values.erase id)

/-- `Share`: declares `var obj interface{}` (nil) and returns the closure over it. -/
def Share (_gimple : Ptr) (callback : Callable) (w : World σ) : Callable × World σ :=
  (Callable.share w.nextCell callback,
   { w with cells := Function.update w.cells w.nextCell Value.nil
            nextCell := w.nextCell + 1 })

/-- `Protect`: returns the closure that returns `callback`. -/
def Protect (_gimple : Ptr) (callback : Callable) (w : World σ) : Callable × World σ :=
  (Callable.protect callback, w)

/-- `Raw`: look `id` up; absent gives a nil function and an error, present
gives `value, nil`. -/
def Raw (gimple : Ptr) (id : String) (w : World σ) :
    (Option Callable × Option error) × World σ :=
  match (w.deref gimple).values.lookup id with
  | none => ((none, some (errors_New ("There is no service with id " ++ id))), w)
  | some value => ((some value, none), w)

/-- `Extend`: look `id` up; absent gives a nil function and an error,
present gives the closure `extender` and nil. -/
def Extend (gimple : Ptr) (id : String) (callback : ExtendCallable) (w : World σ) :
    (Option Callable × Option error) × World σ :=
  match (w.deref gimple).values.lookup id with
  | none => ((none, some (errors_New ("There is no service with id " ++ id))), w)
  | some factory => ((some (Callable.extender factory callback), none), w)

/-- `Keys`: the keys of the map, in the order the map yields them. -/
def Keys (gimple : Ptr) (w : World σ) : List String :=
  (w.deref gimple).values.keys

/-- One step of a calling program: a call of the package, a call of a
function value, or a read or write of the caller's own variables. -/
inductive Act (σ : Type) where
  | new
  | setService (gimple : Ptr) (id : String) (value : Callable)
  | getService (gimple : Ptr) (id : String)
  | serviceExists (gimple : Ptr) (id : String)
  | unsetService (gimple : Ptr) (id : String)
  | share (gimple : Ptr) (callback : Callable)
  | protect (gimple : Ptr) (callback : Callable)
  | raw (gimple : Ptr) (id : String)
  | extend (gimple : Ptr) (id : String) (callback : ExtendCallable)
  | keys (gimple : Ptr)
  | call (f : Callable) (c : Option Ptr)
  | callExt (f : ExtendCallable) (origin : Value) (c : Option Ptr)
  | load
  | store (vars : σ)

/-- What a step returns to the program. -/
@[reducible] def Act.Result : Act σ → Type
  | .new => Ptr
  | .setService _ _ _ => Unit
  | .getService _ _ => Value × Option error
  | .serviceExists _ _ => Bool
  | .unsetService _ _ => Unit
  | .share _ _ => Callable
  | .protect _ _ => Callable
  | .raw _ _ => Option Callable × Option error
  | .extend _ _ _ => Option Callable × Option error
  | .keys _ => List String
  | .call _ _ => Value
  | .callExt _ _ _ => Value
  | .load => σ
  | .store _ => Unit

/-- The body of a function literal of the caller: return a value, or do a
step and go on according to what it returned. -/
inductive Prog (σ : Type) where
  | ret (v : Value)
  | step (a : Act σ) (next : Act.Result a → Prog σ)

/-- The function literals of the calling program: the body of literal `n`
of either type, given its arguments. -/
structure Env (σ : Type) where
  fn : Nat → Option Ptr → Prog σ
  ext : Nat → Value → Option Ptr → Prog σ

/-- One step of a calling program: its result and the state after.
`apply` is what a call of a function value does. -/
def exec (apply : Event → World σ → Option (Value × World σ)) :
    (a : Act σ) → World σ → Option (Act.Result a × World σ)
  | .new, w => some (New w)
  | .setService gimple id value, w => some ((), SetService gimple id value w)
  | .getService gimple id, w => GetService apply gimple id w
  | .serviceExists gimple id, w => some (ServiceExists gimple id w, w)
  | .unsetService gimple id, w => some ((), UnsetService gimple id w)
  | .share gimple callback, w => some (Share gimple callback w)
  | .protect gimple callback, w => some (Protect gimple callback w)
  | .raw gimple id, w => some (Raw gimple id w)
  | .extend gimple id callback, w => some (Extend gimple id callback w)
  | .keys gimple, w => some (Keys gimple w, w)
  | .call f c, w => apply (.call f c) w
  | .callExt f origin c, w => apply (.callExt f origin c) w
  | .load, w => some (w.store.vars, w)
  | .store vars, w => some ((), { w with store := { w.store with vars := vars } })

/-- Run the body of a function literal. -/
def runProg (apply : Event → World σ → Option (Value × World σ)) :
    Prog σ → World σ → Option (Value × World σ)
  | .ret v, w => some (v, w)
  | .step a next, w =>
    match exec apply a w with
    | none => none
    | some r => runProg apply (next r.1) r.2

/-- A call of a function value, `f(c)` or `callback(origin, c)`, with nested
calls at most `n` deep.  The three closure cases are the bodies of the
function literals in `Share`, `Protect` and `Extend`. -/
def perform (env : Env σ) : Nat → Event → World σ → Option (Value × World σ)
  | 0, _, _ => none
  | n + 1, .call (.lit k) c, w =>
    runProg (perform env n) (env.fn k c) (w.log (.call (.lit k) c))
  | n + 1, .call (.share obj callback) c, w =>
    let w1 := w.log (.call (.share obj callback) c)
    -- if obj == nil { obj = callback(c) }; return obj
    if w1.cells obj = Value.nil then
      match perform env n (.call callback c) w1 with
      | none => none
      | some r =>
        let w2 : World σ := { r.2 with cells := Function.update r.2.cells obj r.1 }
        some (w2.cells obj, w2)
    else
      some (w1.cells obj, w1)
  | _ + 1, .call (.protect callback) c, w =>
    -- return callback
    some (Value.callable callback, w.log (.call (.protect callback) c))
  | n + 1, .call (.extender factory callback) c, w =>
    -- return callback(factory(c), c)
    match perform env n (.call factory c) (w.log (.call (.extender factory callback) c)) with
    | none => none
    | some r => perform env n (.callExt callback r.1 c) r.2
  | n + 1, .callExt (.lit k) origin c, w =>
    runProg (perform env n) (env.ext k origin c) (w.log (.callExt (.lit k) origin c))

/-- The call `f(c)` of a `Callable`, with nested calls at most `n` deep. -/
def invoke (env : Env σ) (n : Nat) (f : Callable) (c : Option Ptr) (w : World σ) :
    Option (Value × World σ) :=
  perform env n (.call f c) w

/-- The call `callback(origin, c)` of an `ExtendCallable`. -/
def invokeExt (env : Env σ) (n : Nat) (callback : ExtendCallable) (origin : Value)
    (c : Option Ptr) (w : World σ) : Option (Value × World σ) :=
  perform env n (.callExt callback origin c) w

/-- Number of calls of the function value `f` recorded in a trace. -/
def countCalls (f : Callable) (trace : List Event) : Nat :=
  (trace.filter (fun e => match e with
    | .call g _ => decide (g = f)
    | .callExt _ _ _ => false)).length

/-- Number of calls of the extend callback `ext` recorded in a trace. -/
def countExt (ext : ExtendCallable) (trace : List Event) : Nat :=
  (trace.filter (fun e => match e with
    | .call _ _ => false
    | .callExt g _ _ => decide (g = ext))).length

/-- Nesting depth of a closure: a closure is deeper than what it captures. -/
def Callable.size : Callable → Nat
  | .lit _ => 1
  | .share _ callback => callback.size + 1
  | .protect callback => callback.size + 1
  | .extender factory _ => factory.size + 1

/-- One step of a caller that only registers and removes services. -/
inductive Op where
  | set (id : String) (value : Callable)
  | unset (id : String)
  deriving DecidableEq, Repr

/-- The identifier an operation is about. -/
def Op.target : Op → String
  | .set id _ => id
  | .unset id => id

/-- Run one operation on the container `gimple`. -/
def Op.run (gimple : Ptr) (o : Op) (w : World σ) : World σ :=
  match o with
  | .set id value => SetService gimple id value w
  | .unset id => UnsetService gimple id w

/-- Run a sequence of operations on the container `gimple`, first to last. -/
def runOps (gimple : Ptr) (ops : List Op) (w : World σ) : World σ :=
  ops.foldl (fun acc o => o.run gimple acc) w

/-- The state after a sequence of steps of a calling program, first to
last (what the steps return is dropped); `none` when a step does not return. -/
def runActs (apply : Event → World σ → Option (Value × World σ)) :
    List (Act σ) → World σ → Option (World σ)
  | [], w => some w
  | a :: rest, w =>
    match exec apply a w with
    | none => none
    | some r => runActs apply rest r.2

/-- Two ways to reach the service `id` of a container: `GetService(id)`, or
`Raw(id)` followed by a call of the function it returned on `c`. -/
inductive Access where
  | get
  | raw (c : Option Ptr)
  deriving DecidableEq, Repr

/-- The container argument the stored function is called with by an access. -/
def Access.context (gimple : Ptr) : Access → Option Ptr
  | .get => some gimple
  | .raw c => c

/-- One access: the value and error obtained, and the state after. -/
def Access.run (apply : Event → World σ → Option (Value × World σ))
    (gimple : Ptr) (id : String) (a : Access) (w : World σ) :
    Option ((Value × Option error) × World σ) :=
  match a with
  | .get => GetService apply gimple id w
  | .raw c =>
    match Raw gimple id w with
    | ((some f, _), w1) =>
      match apply (.call f c) w1 with
      | none => none
      | some r => some ((r.1, none), r.2)
    | ((none, err), w1) => some ((Value.nil, err), w1)

/-- A sequence of accesses, first to last: what each returned, and the final state. -/
def runAccesses (apply : Event → World σ → Option (Value × World σ))
    (gimple : Ptr) (id : String) :
    List Access → World σ → Option (List (Value × Option error) × World σ)
  | [], w => some ([], w)
  | a :: rest, w =>
    match a.run apply gimple id w with
    | none => none
    | some r =>
      match runAccesses apply gimple id rest r.2 with
      | none => none
      | some rs => some (r.1 :: rs.1, rs.2)

/-- Whether an event is a call of a closure of `Share` over the same
variable `obj` as the closure `s`.  In a Go program `s` is the only closure
over its variable, so this says: the event is a call of `s`. -/
def overSameVariable (s : Callable) : Event → Bool
  | .call (.share obj _) _ =>
    match s with
    | .share obj' _ => decide (obj = obj')
    | _ => false
  | _ => false

/-- A relation between an earlier and a later state that every elementary
change of state respects: nothing, one change after another, a recorded
call, a change of a map, an allocation by `New` or `Share`, a write to the
caller's variables, and the assignment `obj = callback(c)` made by the
closure of `Share` that found `obj` nil when it was called. -/
structure Stable (R : World σ → World σ → Prop) : Prop where
  refl : ∀ w, R w w
  trans : ∀ a b c, R a b → R b c → R a c
  log : ∀ w e, R w (w.log e)
  setValues : ∀ w gimple values, R w (w.setValues gimple values)
  new : ∀ w, R w (New w).2
  share : ∀ w gimple callback, R w (Share gimple callback w).2
  store : ∀ (w : World σ) (vars : σ), R w { w with store := { w.store with vars := vars } }
  assign : ∀ (w w' : World σ) (obj : Nat) (callback : Callable) (c : Option Ptr) (v : Value),
    (w.log (.call (.share obj callback) c)).cells obj = Value.nil →
    R (w.log (.call (.share obj callback) c)) w' →
    R w { w' with cells := Function.update w'.cells obj v }

/-! ## Scenarios -/

/-- The function literals of the tests, with one counter as the caller's
only variable: literal 0 returns `math{1, 2}`, literal 1 returns
`"My Service"`, literal 2 returns nil on its first call and the number of
earlier calls afterwards, literal 3 always returns nil.  The extend
callback is the one of `TestExtend`, `math{m.sum(), 10}`; on an origin that
is not a `math` (where the Go type assertion stops the program) it yields nil. -/
def testEnv : Env Nat where
  fn := fun n _ =>
    match n with
    | 0 => .ret (Value.math ⟨1, 2⟩)
    | 1 => .ret (Value.str "My Service")
    | 2 => .step .load (fun (k : Nat) => .step (.store (k + 1)) (fun _ =>
        .ret (if k = 0 then Value.nil else Value.int k)))
    | _ => .ret Value.nil
  ext := fun _ origin _ =>
    match origin with
    | Value.math m => .ret (Value.math ⟨m.sum, 10⟩)
    | _ => .ret Value.nil

/-- A caller whose literal 0 removes the service `"x"` from the container at
address 0 and returns 1, as `func(c *Gimple) interface{} { g.UnsetService("x"); return 1 }`
does when `g` is that container; every other literal returns nil. -/
def unsetEnv : Env Nat where
  fn := fun n _ =>
    match n with
    | 0 => .step (.unsetService 0 "x") (fun _ => .ret (Value.int 1))
    | _ => .ret Value.nil
  ext := fun _ _ _ => .ret Value.nil

/-- A caller whose literals call back on their first run.  The caller's
variable `n` counts the runs; `g` is the container at address 0 and `s`,
`s2` are the closures that `Share` returns first and second.
Literal 0 is `{ n++; k := n; if k == 1 { s(c) }; return k }` with `s` the
shared literal 0.
Literal 1 is `{ n++; if n == 1 { g.GetService("x") }; return n }`.
Literal 2 is `{ n++; if n == 1 { r, _ := g.Raw("y"); r(c) }; return n }`.
Literal 3 is `{ n++; if n == 1 { g.GetService("m") }; return math{1, 2} }`.
Literal 4 is `{ n++; if n == 1 { s2(c) }; return 1 }` with `s2` the second
shared literal 4.
The extend callback is the one of `TestExtend`. -/
def reentrantEnv : Env Nat where
  fn := fun n c =>
    match n with
    | 0 => .step .load (fun (k : Nat) => .step (.store (k + 1)) (fun _ =>
        if k + 1 = 1 then
          .step (.call (.share 0 (.lit 0)) c) (fun _ => .ret (Value.int (k + 1)))
        else .ret (Value.int (k + 1))))
    | 1 => .step .load (fun (k : Nat) => .step (.store (k + 1)) (fun _ =>
        if k + 1 = 1 then
          .step (.getService 0 "x") (fun _ => .step .load (fun (m : Nat) => .ret (Value.int m)))
        else .ret (Value.int (k + 1))))
    | 2 => .step .load (fun (k : Nat) => .step (.store (k + 1)) (fun _ =>
        if k + 1 = 1 then
          .step (.raw 0 "y") (fun r =>
            match r.1 with
            | some f => .step (.call f c) (fun _ =>
                .step .load (fun (m : Nat) => .ret (Value.int m)))
            | none => .step .load (fun (m : Nat) => .ret (Value.int m)))
        else .ret (Value.int (k + 1))))
    | 3 => .step .load (fun (k : Nat) => .step (.store (k + 1)) (fun _ =>
        if k + 1 = 1 then
          .step (.getService 0 "m") (fun _ => .ret (Value.math ⟨1, 2⟩))
        else .ret (Value.math ⟨1, 2⟩)))
    | 4 => .step .load (fun (k : Nat) => .step (.store (k + 1)) (fun _ =>
        if k + 1 = 1 then
          .step (.call (.share 1 (.lit 4)) c) (fun _ => .ret (Value.int 1))
        else .ret (Value.int 1)))
    | _ => .ret Value.nil
  ext := fun _ origin _ =>
    match origin with
    | Value.math m => .ret (Value.math ⟨m.sum, 10⟩)
    | _ => .ret Value.nil

/-- A program state with no container allocated and no call made. -/
def emptyWorld : World Nat :=
  { store := { heap := fun _ => ⟨∅⟩, next := 0, vars := 0 }
    cells := fun _ => Value.nil
    nextCell := 0
    trace := [] }

/-- The state after `gimple := New()`; the container is at address 0. -/
def freshWorld : World Nat := (New emptyWorld).2


/-! ## Auxiliary facts -/

theorem lookup_setValues (w : World σ) (gimple : Ptr)
    (values : AList (fun _ : String => Callable)) :
    ((w.setValues gimple values).deref gimple).values = values := by
  simp [World.setValues, World.deref]

theorem serviceExists_eq_false_iff (gimple : Ptr) (id : String) (w : World σ) :
    ServiceExists gimple id w = false ↔ (w.deref gimple).values.lookup id = none := by
  unfold ServiceExists
  cases (w.deref gimple).values.lookup id <;> simp

theorem serviceExists_eq_true_iff (gimple : Ptr) (id : String) (w : World σ) :
    ServiceExists gimple id w = true ↔ ∃ f, (w.deref gimple).values.lookup id = some f := by
  unfold ServiceExists
  cases (w.deref gimple).values.lookup id <;> simp

theorem serviceExists_setService (gimple : Ptr) (id id' : String) (f : Callable) (w : World σ) :
    ServiceExists gimple id' (SetService gimple id f w) =
      if id' = id then true else ServiceExists gimple id' w := by
  unfold ServiceExists SetService
  rw [lookup_setValues]
  by_cases h : id' = id
  · subst h; simp [AList.lookup_insert]
  · simp [h, AList.lookup_insert_ne h]

theorem serviceExists_unsetService (gimple : Ptr) (id id' : String) (w : World σ) :
    ServiceExists gimple id' (UnsetService gimple id w) =
      if id' = id then false else ServiceExists gimple id' w := by
  unfold ServiceExists UnsetService
  rw [lookup_setValues]
  by_cases h : id' = id
  · subst h; simp [AList.lookup_erase]
  · simp [h, AList.lookup_erase_ne h]

/-- `GetService` of an identifier that holds `f` is the call `f(gimple)` with a nil error. -/
theorem getService_of_lookup (apply : Event → World σ → Option (Value × World σ))
    (gimple : Ptr) (id : String) (f : Callable) (w : World σ)
    (h : (w.deref gimple).values.lookup id = some f) :
    GetService apply gimple id w =
      (apply (.call f (some gimple)) w).map (fun r => ((r.1, none), r.2)) := by
  simp only [GetService, h]
  cases apply (.call f (some gimple)) w <;> rfl

theorem getService_of_lookup_none (apply : Event → World σ → Option (Value × World σ))
    (gimple : Ptr) (id : String) (w : World σ)
    (h : (w.deref gimple).values.lookup id = none) :
    GetService apply gimple id w =
      some ((Value.nil, some (errors_New ("There is no service with id " ++ id))), w) := by
  simp only [GetService, h]

theorem lookup_setService_self (gimple : Ptr) (id : String) (f : Callable) (w : World σ) :
    ((SetService gimple id f w).deref gimple).values.lookup id = some f := by
  unfold SetService
  rw [lookup_setValues, AList.lookup_insert]

theorem getService_setService (env : Env σ) (n : Nat) (gimple : Ptr) (id : String)
    (f : Callable) (w : World σ) :
    GetService (perform env n) gimple id (SetService gimple id f w) =
      (invoke env n f (some gimple) (SetService gimple id f w)).map
        (fun r => ((r.1, none), r.2)) :=
  getService_of_lookup _ gimple id f _ (lookup_setService_self gimple id f w)

theorem size_pos (f : Callable) : 0 < f.size := by
  cases f <;> simp [Callable.size]

theorem share_ne_self (obj : Nat) (f : Callable) : Callable.share obj f ≠ f := by
  intro h
  have := congrArg Callable.size h
  simp [Callable.size] at this

theorem protect_ne_self (f : Callable) : Callable.protect f ≠ f := by
  intro h
  have := congrArg Callable.size h
  simp [Callable.size] at this

theorem extender_ne_self (f : Callable) (ext : ExtendCallable) :
    Callable.extender f ext ≠ f := by
  intro h
  have := congrArg Callable.size h
  simp [Callable.size] at this

theorem countCalls_append (f : Callable) (xs ys : List Event) :
    countCalls f (xs ++ ys) = countCalls f xs + countCalls f ys := by
  simp [countCalls]

theorem countCalls_cons (f : Callable) (e : Event) (xs : List Event) :
    countCalls f (e :: xs) = countCalls f [e] + countCalls f xs :=
  countCalls_append f [e] xs

theorem countCalls_call_self (f : Callable) (c : Option Ptr) :
    countCalls f [Event.call f c] = 1 := by
  simp [countCalls]

theorem countCalls_call_ne {f g : Callable} (h : g ≠ f) (c : Option Ptr) :
    countCalls f [Event.call g c] = 0 := by
  simp [countCalls, h]

theorem countCalls_callExt (f : Callable) (e : ExtendCallable) (v : Value) (c : Option Ptr) :
    countCalls f [Event.callExt e v c] = 0 := by
  simp [countCalls]

theorem countExt_append (ext : ExtendCallable) (xs ys : List Event) :
    countExt ext (xs ++ ys) = countExt ext xs + countExt ext ys := by
  simp [countExt]

theorem countExt_cons (ext : ExtendCallable) (e : Event) (xs : List Event) :
    countExt ext (e :: xs) = countExt ext [e] + countExt ext xs :=
  countExt_append ext [e] xs

theorem countExt_call (ext : ExtendCallable) (f : Callable) (c : Option Ptr) :
    countExt ext [Event.call f c] = 0 := by
  simp [countExt]

theorem countExt_callExt_self (ext : ExtendCallable) (v : Value) (c : Option Ptr) :
    countExt ext [Event.callExt ext v c] = 1 := by
  simp [countExt]

/-! ## Calls -/

theorem perform_zero (env : Env σ) (e : Event) (w : World σ) : perform env 0 e w = none := rfl

theorem invoke_lit (env : Env σ) (n k : Nat) (c : Option Ptr) (w : World σ) :
    invoke env (n + 1) (.lit k) c w =
      runProg (perform env n) (env.fn k c) (w.log (.call (.lit k) c)) := rfl

theorem invokeExt_lit (env : Env σ) (n k : Nat) (origin : Value) (c : Option Ptr)
    (w : World σ) :
    invokeExt env (n + 1) (.lit k) origin c w =
      runProg (perform env n) (env.ext k origin c) (w.log (.callExt (.lit k) origin c)) := rfl

/-- The closure of `Share` called while `obj` is nil: it calls `callback`,
assigns what that returns to `obj` and returns it. -/
theorem invoke_share_unset (env : Env σ) (n obj : Nat) (callback : Callable) (c : Option Ptr)
    (w : World σ) (h : w.cells obj = Value.nil) :
    invoke env (n + 1) (.share obj callback) c w =
      (invoke env n callback c (w.log (.call (.share obj callback) c))).map
        (fun r => (r.1, { r.2 with cells := Function.update r.2.cells obj r.1 })) := by
  have h' : (w.log (.call (.share obj callback) c)).cells obj = Value.nil := h
  simp only [invoke, perform, h', if_true]
  cases perform env n (.call callback c) (w.log (.call (.share obj callback) c)) with
  | none => rfl
  | some r => simp

/-- The closure of `Share` called while `obj` is not nil: it returns `obj`
and calls nothing. -/
theorem invoke_share_cached (env : Env σ) (n obj : Nat) (callback : Callable) (c : Option Ptr)
    (w : World σ) (h : w.cells obj ≠ Value.nil) :
    invoke env (n + 1) (.share obj callback) c w =
      some (w.cells obj, w.log (.call (.share obj callback) c)) := by
  have h' : ¬ (w.log (.call (.share obj callback) c)).cells obj = Value.nil := h
  simp only [invoke, perform, h', if_false]
  rfl

theorem invoke_protect (env : Env σ) (n : Nat) (callback : Callable) (c : Option Ptr)
    (w : World σ) :
    invoke env (n + 1) (.protect callback) c w =
      some (Value.callable callback, w.log (.call (.protect callback) c)) := rfl

/-- The closure `extender` of `Extend`: `callback(factory(c), c)`. -/
theorem invoke_extender (env : Env σ) (n : Nat) (factory : Callable)
    (callback : ExtendCallable) (c : Option Ptr) (w : World σ) :
    invoke env (n + 1) (.extender factory callback) c w =
      (invoke env n factory c (w.log (.call (.extender factory callback) c))).bind
        (fun r => invokeExt env n callback r.1 c r.2) := by
  simp only [invoke, invokeExt, perform]
  cases perform env n (.call factory c) (w.log (.call (.extender factory callback) c)) <;> rfl

/-! ## What holds across every call -/

theorem getService_stable {R : World σ → World σ → Prop} (hR : Stable R)
    (apply : Event → World σ → Option (Value × World σ))
    (happly : ∀ e w r, apply e w = some r → R w r.2)
    (gimple : Ptr) (id : String) (w : World σ) (r : (Value × Option error) × World σ)
    (h : GetService apply gimple id w = some r) : R w r.2 := by
  cases hl : (w.deref gimple).values.lookup id with
  | none =>
    rw [getService_of_lookup_none apply gimple id w hl] at h
    cases h
    exact hR.refl w
  | some value =>
    rw [getService_of_lookup apply gimple id value w hl] at h
    cases ha : apply (.call value (some gimple)) w with
    | none => rw [ha] at h; cases h
    | some r0 =>
      rw [ha] at h
      cases h
      exact happly _ _ _ ha

theorem exec_stable {R : World σ → World σ → Prop} (hR : Stable R)
    (apply : Event → World σ → Option (Value × World σ))
    (happly : ∀ e w r, apply e w = some r → R w r.2)
    (a : Act σ) (w : World σ) (r : Act.Result a × World σ)
    (h : exec apply a w = some r) : R w r.2 := by
  cases a with
  | new => cases h; exact hR.new w
  | setService gimple id value => cases h; exact hR.setValues w _ _
  | getService gimple id => exact getService_stable hR apply happly gimple id w r h
  | serviceExists gimple id => cases h; exact hR.refl w
  | unsetService gimple id => cases h; exact hR.setValues w _ _
  | share gimple callback => cases h; exact hR.share w _ _
  | protect gimple callback => cases h; exact hR.refl w
  | raw gimple id =>
    simp only [exec, Raw, Option.some.injEq] at h
    subst h
    cases (w.deref gimple).values.lookup id <;> exact hR.refl w
  | extend gimple id callback =>
    simp only [exec, Extend, Option.some.injEq] at h
    subst h
    cases (w.deref gimple).values.lookup id <;> exact hR.refl w
  | keys gimple => cases h; exact hR.refl w
  | call f c => exact happly _ _ _ h
  | callExt f origin c => exact happly _ _ _ h
  | load => cases h; exact hR.refl w
  | store vars => cases h; exact hR.store w vars

theorem runProg_stable {R : World σ → World σ → Prop} (hR : Stable R)
    (apply : Event → World σ → Option (Value × World σ))
    (happly : ∀ e w r, apply e w = some r → R w r.2)
    (p : Prog σ) : ∀ (w : World σ) (r : Value × World σ),
      runProg apply p w = some r → R w r.2 := by
  induction p with
  | ret v =>
    intro w r h
    cases h
    exact hR.refl w
  | step a next ih =>
    intro w r h
    simp only [runProg] at h
    cases he : exec apply a w with
    | none => rw [he] at h; cases h
    | some r0 =>
      rw [he] at h
      exact hR.trans _ _ _ (exec_stable hR apply happly a w r0 he) (ih r0.1 r0.2 r h)

/-- A relation that every elementary change of state respects holds between
the state before and the state after every call that returns. -/
theorem perform_stable {R : World σ → World σ → Prop} (hR : Stable R) (env : Env σ) :
    ∀ (n : Nat) (e : Event) (w : World σ) (r : Value × World σ),
      perform env n e w = some r → R w r.2 := by
  intro n
  induction n with
  | zero => intro e w r h; cases h
  | succ n ih =>
    intro e w r h
    cases e with
    | call f c =>
      cases f with
      | lit k =>
        exact hR.trans _ _ _ (hR.log w _)
          (runProg_stable hR _ ih (env.fn k c) _ r h)
      | share obj callback =>
        by_cases hcell : w.cells obj = Value.nil
        · have h' : invoke env (n + 1) (.share obj callback) c w = some r := h
          rw [invoke_share_unset env n obj callback c w hcell] at h'
          cases hc : invoke env n callback c (w.log (.call (.share obj callback) c)) with
          | none => rw [hc] at h'; cases h'
          | some r0 =>
            rw [hc] at h'
            cases h'
            exact hR.assign w r0.2 obj callback c r0.1 hcell (ih _ _ _ hc)
        · have h' : invoke env (n + 1) (.share obj callback) c w = some r := h
          rw [invoke_share_cached env n obj callback c w hcell] at h'
          cases h'
          exact hR.log w _
      | protect callback =>
        cases h
        exact hR.log w _
      | extender factory callback =>
        have h' : invoke env (n + 1) (.extender factory callback) c w = some r := h
        rw [invoke_extender] at h'
        cases hc : invoke env n factory c (w.log (.call (.extender factory callback) c)) with
        | none => rw [hc] at h'; cases h'
        | some r0 =>
          rw [hc] at h'
          exact hR.trans _ _ _ (hR.log w _)
            (hR.trans _ _ _ (ih _ _ _ hc) (ih _ _ _ h'))
    | callExt f origin c =>
      cases f with
      | lit k =>
        exact hR.trans _ _ _ (hR.log w _)
          (runProg_stable hR _ ih (env.ext k origin c) _ r h)

theorem runActs_stable {R : World σ → World σ → Prop} (hR : Stable R)
    (apply : Event → World σ → Option (Value × World σ))
    (happly : ∀ e w r, apply e w = some r → R w r.2)
    (acts : List (Act σ)) : ∀ (w w' : World σ), runActs apply acts w = some w' → R w w' := by
  induction acts with
  | nil =>
    intro w w' h
    cases h
    exact hR.refl w
  | cons a acts ih =>
    intro w w' h
    simp only [runActs] at h
    cases he : exec apply a w with
    | none => rw [he] at h; cases h
    | some r0 =>
      rw [he] at h
      exact hR.trans _ _ _ (exec_stable hR apply happly a w r0 he) (ih r0.2 w' h)


/-- Every change of state only adds to the trace. -/
theorem stable_trace :
    Stable (fun (w w' : World σ) => ∃ evs, w'.trace = w.trace ++ evs) where
  refl := fun w => ⟨[], by simp⟩
  trans := by
    rintro a b c ⟨e1, h1⟩ ⟨e2, h2⟩
    exact ⟨e1 ++ e2, by rw [h2, h1, List.append_assoc]⟩
  log := fun w e => ⟨[e], rfl⟩
  setValues := fun w _ _ => ⟨[], by simp [World.setValues]⟩
  new := fun w => ⟨[], by simp [New]⟩
  share := fun w _ _ => ⟨[], by simp [Share]⟩
  store := fun w _ => ⟨[], by simp⟩
  assign := by
    rintro w w' obj callback c v _ ⟨evs, h⟩
    exact ⟨Event.call (.share obj callback) c :: evs, by
      simp only [h, World.log, List.append_assoc, List.singleton_append]⟩

/-- A captured variable that is allocated and holds a non-nil value is
never changed. -/
theorem stable_cell (k : Nat) :
    Stable (fun (w w' : World σ) => w.cells k ≠ Value.nil → k < w.nextCell →
      w'.cells k = w.cells k ∧ k < w'.nextCell) where
  refl := fun w _ hk => ⟨rfl, hk⟩
  trans := by
    intro a b c h1 h2 hv hk
    obtain ⟨h3, h4⟩ := h1 hv hk
    obtain ⟨h5, h6⟩ := h2 (by rw [h3]; exact hv) h4
    exact ⟨by rw [h5, h3], h6⟩
  log := fun w e _ hk => ⟨rfl, hk⟩
  setValues := fun w _ _ _ hk => ⟨rfl, hk⟩
  new := fun w _ hk => ⟨rfl, hk⟩
  share := by
    intro w gimple callback _ hk
    simp only [Share]
    exact ⟨Function.update_noteq (Nat.ne_of_lt hk) _ _, Nat.lt_succ_of_lt hk⟩
  store := fun w _ _ hk => ⟨rfl, hk⟩
  assign := by
    intro w w' obj callback c v hnil h hv hk
    obtain ⟨h1, h2⟩ := h hv hk
    have hne : k ≠ obj := by
      intro heq
      subst heq
      exact hv hnil
    exact ⟨by simp only [Function.update_noteq hne]; exact h1, h2⟩

/-- An allocated captured variable `k` changes only when a closure over `k`
is called. -/
theorem stable_cell_unless_called (k : Nat) :
    Stable (fun (w w' : World σ) => k < w.nextCell →
      ∃ evs, w'.trace = w.trace ++ evs ∧ k < w'.nextCell ∧
        ((∀ callback c, Event.call (.share k callback) c ∉ evs) →
          w'.cells k = w.cells k)) where
  refl := fun w hk => ⟨[], by simp, hk, fun _ => rfl⟩
  trans := by
    intro a b c h1 h2 hk
    obtain ⟨e1, ht1, hk1, hc1⟩ := h1 hk
    obtain ⟨e2, ht2, hk2, hc2⟩ := h2 hk1
    refine ⟨e1 ++ e2, by rw [ht2, ht1, List.append_assoc], hk2, ?_⟩
    intro hno
    rw [hc2 (fun cb c' hm => hno cb c' (List.mem_append_right _ hm)),
      hc1 (fun cb c' hm => hno cb c' (List.mem_append_left _ hm))]
  log := fun w e hk => ⟨[e], rfl, hk, fun _ => rfl⟩
  setValues := fun w _ _ hk => ⟨[], by simp [World.setValues], hk, fun _ => rfl⟩
  new := fun w hk => ⟨[], by simp [New], hk, fun _ => rfl⟩
  share := by
    intro w gimple callback hk
    refine ⟨[], by simp [Share], Nat.lt_succ_of_lt hk, fun _ => ?_⟩
    simp only [Share]
    exact Function.update_noteq (Nat.ne_of_lt hk) _ _
  store := fun w _ hk => ⟨[], by simp, hk, fun _ => rfl⟩
  assign := by
    intro w w' obj callback c v _ h hk
    obtain ⟨evs, ht, hk', hc⟩ := h hk
    refine ⟨Event.call (.share obj callback) c :: evs, by
      simp only [ht, World.log, List.append_assoc, List.singleton_append], hk', ?_⟩
    intro hno
    have hne : k ≠ obj := by
      intro heq
      subst heq
      exact hno callback c (List.mem_cons_self _ _)
    simp only [Function.update_noteq hne]
    exact hc (fun cb c' hm => hno cb c' (List.mem_cons_of_mem _ hm))

/-- A call that returns has recorded itself first, then whatever it led to. -/
theorem perform_trace (env : Env σ) (n : Nat) (e : Event) (w : World σ)
    (r : Value × World σ) (h : perform env n e w = some r) :
    ∃ during, r.2.trace = w.trace ++ e :: during := by
  cases n with
  | zero => cases h
  | succ n =>
    have hsub := perform_stable (@stable_trace σ) env n
    cases e with
    | call f c =>
      cases f with
      | lit k =>
        obtain ⟨evs, hevs⟩ :=
          runProg_stable stable_trace _ hsub (env.fn k c) _ r h
        exact ⟨evs, by rw [hevs]; simp [World.log]⟩
      | share obj callback =>
        by_cases hcell : w.cells obj = Value.nil
        · have h' : invoke env (n + 1) (.share obj callback) c w = some r := h
          rw [invoke_share_unset env n obj callback c w hcell] at h'
          cases hc : invoke env n callback c (w.log (.call (.share obj callback) c)) with
          | none => rw [hc] at h'; cases h'
          | some r0 =>
            rw [hc] at h'
            cases h'
            obtain ⟨evs, hevs⟩ := hsub _ _ _ hc
            exact ⟨evs, by simp only [hevs, World.log, List.append_assoc, List.singleton_append]⟩
        · have h' : invoke env (n + 1) (.share obj callback) c w = some r := h
          rw [invoke_share_cached env n obj callback c w hcell] at h'
          cases h'
          exact ⟨[], rfl⟩
      | protect callback =>
        cases h
        exact ⟨[], rfl⟩
      | extender factory callback =>
        have h' : invoke env (n + 1) (.extender factory callback) c w = some r := h
        rw [invoke_extender] at h'
        cases hc : invoke env n factory c (w.log (.call (.extender factory callback) c)) with
        | none => rw [hc] at h'; cases h'
        | some r0 =>
          rw [hc] at h'
          obtain ⟨e1, h1⟩ := hsub _ _ _ hc
          obtain ⟨e2, h2⟩ := hsub _ _ _ h'
          exact ⟨e1 ++ e2, by
            rw [h2, h1]
            simp [World.log]⟩
    | callExt f origin c =>
      cases f with
      | lit k =>
        obtain ⟨evs, hevs⟩ :=
          runProg_stable stable_trace _ hsub (env.ext k origin c) _ r h
        exact ⟨evs, by rw [hevs]; simp [World.log]⟩

theorem invoke_trace (env : Env σ) (n : Nat) (f : Callable) (c : Option Ptr) (w : World σ)
    (r : Value × World σ) (h : invoke env n f c w = some r) :
    ∃ during, r.2.trace = w.trace ++ Event.call f c :: during :=
  perform_trace env n _ w r h

theorem invokeExt_trace (env : Env σ) (n : Nat) (ext : ExtendCallable) (origin : Value)
    (c : Option Ptr) (w : World σ) (r : Value × World σ)
    (h : invokeExt env n ext origin c w = some r) :
    ∃ during, r.2.trace = w.trace ++ Event.callExt ext origin c :: during :=
  perform_trace env n _ w r h

/-- A call of `f` that returns has added at least one call of `f` to the trace. -/
theorem countCalls_invoke_le (env : Env σ) (n : Nat) (f : Callable) (c : Option Ptr)
    (w : World σ) (r : Value × World σ) (h : invoke env n f c w = some r) :
    countCalls f w.trace + 1 ≤ countCalls f r.2.trace := by
  obtain ⟨during, hd⟩ := invoke_trace env n f c w r h
  rw [hd, countCalls_append, countCalls_cons, countCalls_call_self]
  omega

/-- No call removes anything from the trace. -/
theorem countCalls_perform_le (env : Env σ) (n : Nat) (e : Event) (f : Callable)
    (w : World σ) (r : Value × World σ) (h : perform env n e w = some r) :
    countCalls f w.trace ≤ countCalls f r.2.trace := by
  obtain ⟨during, hd⟩ := perform_trace env n e w r h
  rw [hd, countCalls_append]
  omega


/-! ## A larger allowance of nested calls changes no result -/

theorem getService_mono (apply apply' : Event → World σ → Option (Value × World σ))
    (h : ∀ e w r, apply e w = some r → apply' e w = some r)
    (gimple : Ptr) (id : String) (w : World σ) (r : (Value × Option error) × World σ)
    (hr : GetService apply gimple id w = some r) : GetService apply' gimple id w = some r := by
  cases hl : (w.deref gimple).values.lookup id with
  | none =>
    rw [getService_of_lookup_none apply gimple id w hl] at hr
    rw [getService_of_lookup_none apply' gimple id w hl]
    exact hr
  | some value =>
    rw [getService_of_lookup apply gimple id value w hl] at hr
    rw [getService_of_lookup apply' gimple id value w hl]
    cases ha : apply (.call value (some gimple)) w with
    | none => rw [ha] at hr; cases hr
    | some r0 =>
      rw [ha] at hr
      rw [h _ _ _ ha]
      exact hr

theorem exec_mono (apply apply' : Event → World σ → Option (Value × World σ))
    (h : ∀ e w r, apply e w = some r → apply' e w = some r)
    (a : Act σ) (w : World σ) (r : Act.Result a × World σ)
    (hr : exec apply a w = some r) : exec apply' a w = some r := by
  cases a with
  | getService gimple id => exact getService_mono apply apply' h gimple id w r hr
  | call f c => exact h _ _ _ hr
  | callExt f origin c => exact h _ _ _ hr
  | new => exact hr
  | setService gimple id value => exact hr
  | serviceExists gimple id => exact hr
  | unsetService gimple id => exact hr
  | share gimple callback => exact hr
  | protect gimple callback => exact hr
  | raw gimple id => exact hr
  | extend gimple id callback => exact hr
  | keys gimple => exact hr
  | load => exact hr
  | store vars => exact hr

theorem runProg_mono (apply apply' : Event → World σ → Option (Value × World σ))
    (h : ∀ e w r, apply e w = some r → apply' e w = some r)
    (p : Prog σ) : ∀ (w : World σ) (r : Value × World σ),
      runProg apply p w = some r → runProg apply' p w = some r := by
  induction p with
  | ret v => intro w r hr; exact hr
  | step a next ih =>
    intro w r hr
    simp only [runProg] at hr ⊢
    cases he : exec apply a w with
    | none => rw [he] at hr; cases hr
    | some r0 =>
      rw [he] at hr
      rw [exec_mono apply apply' h a w r0 he]
      exact ih r0.1 r0.2 r hr

/-- A call that returns with nested calls at most `n` deep returns the same
with any larger allowance. -/
theorem perform_mono (env : Env σ) :
    ∀ (n : Nat) (e : Event) (w : World σ) (r : Value × World σ),
      perform env n e w = some r → perform env (n + 1) e w = some r := by
  intro n
  induction n with
  | zero => intro e w r h; cases h
  | succ n ih =>
    intro e w r h
    cases e with
    | call f c =>
      cases f with
      | lit k => exact runProg_mono _ _ ih (env.fn k c) _ r h
      | share obj callback =>
        have h' : invoke env (n + 1) (.share obj callback) c w = some r := h
        show invoke env (n + 2) (.share obj callback) c w = some r
        by_cases hcell : w.cells obj = Value.nil
        · rw [invoke_share_unset env n obj callback c w hcell] at h'
          rw [invoke_share_unset env (n + 1) obj callback c w hcell]
          cases hc : invoke env n callback c (w.log (.call (.share obj callback) c)) with
          | none => rw [hc] at h'; cases h'
          | some r0 =>
            rw [hc] at h'
            have hc' : invoke env (n + 1) callback c (w.log (.call (.share obj callback) c)) =
                some r0 := ih _ _ _ hc
            rw [hc']
            exact h'
        · rw [invoke_share_cached env n obj callback c w hcell] at h'
          rw [invoke_share_cached env (n + 1) obj callback c w hcell]
          exact h'
      | protect callback => exact h
      | extender factory callback =>
        have h' : invoke env (n + 1) (.extender factory callback) c w = some r := h
        show invoke env (n + 2) (.extender factory callback) c w = some r
        rw [invoke_extender] at h' ⊢
        cases hc : invoke env n factory c (w.log (.call (.extender factory callback) c)) with
        | none => rw [hc] at h'; cases h'
        | some r0 =>
          rw [hc] at h'
          have hc' : invoke env (n + 1) factory c
              (w.log (.call (.extender factory callback) c)) = some r0 := ih _ _ _ hc
          rw [hc']
          exact ih _ _ _ h'
    | callExt f origin c =>
      cases f with
      | lit k => exact runProg_mono _ _ ih (env.ext k origin c) _ r h


/-! ## Lookups of an identifier that is not registered -/

/-- C1: `GetService`, `Raw` and `Extend` return a non-nil error exactly when
the identifier is not registered; in that case the value or function
returned is nil and the state is untouched, so the trace shows that no
function value was called.  (`GetService` on a registered identifier
returns when the factory does, and then with a nil error.) -/
theorem C1_error_iff_not_registered (env : Env σ) (n : Nat) (gimple : Ptr) (id : String)
    (ext : ExtendCallable) (w : World σ) :
    ((∃ r, GetService (perform env n) gimple id w = some r ∧ r.1.2 ≠ none) ↔
      ServiceExists gimple id w = false) ∧
    (∀ r, GetService (perform env n) gimple id w = some r →
      (r.1.2 ≠ none ↔ ServiceExists gimple id w = false)) ∧
    ((Raw gimple id w).1.2 ≠ none ↔ ServiceExists gimple id w = false) ∧
    ((Extend gimple id ext w).1.2 ≠ none ↔ ServiceExists gimple id w = false) ∧
    (ServiceExists gimple id w = false →
      (∃ e, GetService (perform env n) gimple id w = some ((Value.nil, some e), w)) ∧
      (Raw gimple id w).1.1 = none ∧
      (Extend gimple id ext w).1.1 = none ∧
      (Raw gimple id w).2 = w ∧
      (Extend gimple id ext w).2 = w ∧
      (Raw gimple id w).2.trace = w.trace ∧
      (Extend gimple id ext w).2.trace = w.trace) := by
  cases hl : (w.deref gimple).values.lookup id with
  | none =>
    have hex : ServiceExists gimple id w = false := (serviceExists_eq_false_iff _ _ _).2 hl
    have hget := getService_of_lookup_none (perform env n) gimple id w hl
    rw [hget]
    simp [Raw, Extend, hl, hex]
  | some value =>
    have hex : ServiceExists gimple id w = true :=
      (serviceExists_eq_true_iff _ _ _).2 ⟨value, hl⟩
    have hget := getService_of_lookup (perform env n) gimple id value w hl
    rw [hget]
    cases perform env n (.call value (some gimple)) w <;> simp [Raw, Extend, hl, hex]

/-- C1 at a concrete input: on a fresh container `"test"` gives an error
from all three, and once registered from none of them. -/
theorem C1_error_iff_not_registered_witness :
    GetService (perform testEnv 1) 0 "test" freshWorld =
        some ((Value.nil, some ⟨"There is no service with id test"⟩), freshWorld) ∧
    (Raw 0 "test" freshWorld).1 = (none, some ⟨"There is no service with id test"⟩) ∧
    (Extend 0 "test" (.lit 0) freshWorld).1 =
        (none, some ⟨"There is no service with id test"⟩) ∧
    (GetService (perform testEnv 1) 0 "test" (SetService 0 "test" (.lit 1) freshWorld)).map
        (fun r => r.1) = some (Value.str "My Service", none) ∧
    (Raw 0 "test" (SetService 0 "test" (.lit 1) freshWorld)).1 = (some (.lit 1), none) ∧
    ((∃ r, GetService (perform testEnv 1) 0 "test" freshWorld = some r ∧ r.1.2 ≠ none) ↔
        ServiceExists 0 "test" freshWorld = false) :=
  ⟨rfl, by decide, by decide, by decide, by decide,
   (C1_error_iff_not_registered testEnv 1 0 "test" (.lit 0) freshWorld).1⟩

/-- C2: for an identifier that is not registered, the three lookups return
one and the same error; its message is "There is no service with id "
followed by the identifier; dropping the 28 characters of that text gives
the identifier back; and an error that any of the three lookups returns
for a different identifier has a different message. -/
theorem C2_error_carries_id (env : Env σ) (n : Nat) (gimple : Ptr) (id : String)
    (ext : ExtendCallable) (w : World σ) (h : ServiceExists gimple id w = false) :
    ∃ e : error,
      GetService (perform env n) gimple id w = some ((Value.nil, some e), w) ∧
      (Raw gimple id w).1.2 = some e ∧
      (Extend gimple id ext w).1.2 = some e ∧
      e.msg = "There is no service with id " ++ id ∧
      e.msg.drop 28 = id ∧
      ∀ (n' : Nat) (gimple' : Ptr) (id' : String) (ext' : ExtendCallable) (w' : World σ)
        (e' : error),
        ((∃ r, GetService (perform env n') gimple' id' w' = some r ∧ r.1.2 = some e') ∨
         (Raw gimple' id' w').1.2 = some e' ∨
         (Extend gimple' id' ext' w').1.2 = some e') →
        id' ≠ id → e'.msg ≠ e.msg := by
  have hdrop : ∀ s : String, ("There is no service with id " ++ s).drop 28 = s := by
    intro s
    rw [String.drop_eq]
    simp [String.data_append]
  have hmsg : ∀ (n' : Nat) (gimple' : Ptr) (id' : String) (ext' : ExtendCallable)
      (w' : World σ) (e' : error),
      ((∃ r, GetService (perform env n') gimple' id' w' = some r ∧ r.1.2 = some e') ∨
       (Raw gimple' id' w').1.2 = some e' ∨
       (Extend gimple' id' ext' w').1.2 = some e') →
      e'.msg = "There is no service with id " ++ id' := by
    intro n' gimple' id' ext' w' e' h'
    cases hl : (w'.deref gimple').values.lookup id' with
    | none =>
      rw [getService_of_lookup_none _ gimple' id' w' hl] at h'
      simp only [Raw, Extend, hl, errors_New] at h'
      rcases h' with ⟨r, hr, he⟩ | h' | h'
      · cases hr
        cases he
        rfl
      · cases h'; rfl
      · cases h'; rfl
    | some v =>
      rw [getService_of_lookup _ gimple' id' v w' hl] at h'
      simp only [Raw, Extend, hl] at h'
      rcases h' with ⟨r, hr, he⟩ | h' | h'
      · cases hp : perform env n' (.call v (some gimple')) w' with
        | none => rw [hp] at hr; cases hr
        | some r0 =>
          rw [hp] at hr
          cases hr
          cases he
      · cases h'
      · cases h'
  rw [serviceExists_eq_false_iff] at h
  refine ⟨errors_New ("There is no service with id " ++ id),
    getService_of_lookup_none _ gimple id w h, ?_, ?_, rfl, hdrop id, ?_⟩
  · simp [Raw, h]
  · simp [Extend, h]
  · intro n' gimple' id' ext' w' e' h' hne heq
    apply hne
    have h1 := hmsg n' gimple' id' ext' w' e' h'
    have h2 : ("There is no service with id " ++ id').drop 28 =
        ("There is no service with id " ++ id).drop 28 := by
      rw [← h1, heq]; rfl
    rwa [hdrop, hdrop] at h2

/-- C2 at a concrete input: looking `"math-service"` up in a fresh container. -/
theorem C2_error_carries_id_witness :
    ServiceExists 0 "math-service" freshWorld = false ∧
    ∃ e : error,
      GetService (perform testEnv 1) 0 "math-service" freshWorld =
        some ((Value.nil, some e), freshWorld) ∧
      (Raw 0 "math-service" freshWorld).1.2 = some e ∧
      (Extend 0 "math-service" (.lit 0) freshWorld).1.2 = some e ∧
      e.msg = "There is no service with id " ++ "math-service" ∧
      e.msg.drop 28 = "math-service" ∧
      ∀ (n' : Nat) (gimple' : Ptr) (id' : String) (ext' : ExtendCallable) (w' : World Nat)
        (e' : error),
        ((∃ r, GetService (perform testEnv n') gimple' id' w' = some r ∧ r.1.2 = some e') ∨
         (Raw gimple' id' w').1.2 = some e' ∨
         (Extend gimple' id' ext' w').1.2 = some e') →
        id' ≠ "math-service" → e'.msg ≠ e.msg :=
  ⟨by decide, C2_error_carries_id testEnv 1 0 "math-service" (.lit 0) freshWorld (by decide)⟩

/-! ## Registering and removing -/

/-- C3: whatever the container held before, after `SetService(id, f)` the
call `GetService(id)` is the call of `f` on that container (in the state
`SetService` left): it returns when `f` does, with the value of `f` and a
nil error.  Setting `f1` and then `f2` leaves exactly the state that
setting `f2` alone leaves, so `GetService(id)` is then the call of `f2`. -/
theorem C3_get_after_set (env : Env σ) (n : Nat) (gimple : Ptr) (id : String)
    (f f1 f2 : Callable) (w : World σ) :
    GetService (perform env n) gimple id (SetService gimple id f w) =
      (invoke env n f (some gimple) (SetService gimple id f w)).map
        (fun r => ((r.1, none), r.2)) ∧
    SetService gimple id f2 (SetService gimple id f1 w) = SetService gimple id f2 w ∧
    GetService (perform env n) gimple id (SetService gimple id f2 (SetService gimple id f1 w)) =
      (invoke env n f2 (some gimple) (SetService gimple id f2 w)).map
        (fun r => ((r.1, none), r.2)) := by
  have hover : SetService gimple id f2 (SetService gimple id f1 w) = SetService gimple id f2 w := by
    unfold SetService
    rw [lookup_setValues, AList.insert_insert]
    simp [World.setValues]
  refine ⟨getService_setService env n gimple id f w, hover, ?_⟩
  rw [hover]
  exact getService_setService env n gimple id f2 w

/-- C3 at the input of `TestGetSetService`, and with an overwrite. -/
theorem C3_get_after_set_witness :
    (GetService (perform testEnv 1) 0 "test" (SetService 0 "test" (.lit 1) freshWorld)).map
      (fun r => r.1) = some (Value.str "My Service", none) ∧
    (GetService (perform testEnv 1) 0 "test"
        (SetService 0 "test" (.lit 0) (SetService 0 "test" (.lit 1) freshWorld))).map
      (fun r => r.1) = some (Value.math ⟨1, 2⟩, none) ∧
    (invoke testEnv 1 (.lit 1) (some 0) (SetService 0 "test" (.lit 1) freshWorld)).map
      (fun r => r.1) = some (Value.str "My Service") ∧
    GetService (perform testEnv 1) 0 "test" (SetService 0 "test" (.lit 1) freshWorld) =
      (invoke testEnv 1 (.lit 1) (some 0) (SetService 0 "test" (.lit 1) freshWorld)).map
        (fun r => ((r.1, none), r.2)) :=
  ⟨by decide, by decide, by decide,
   (C3_get_after_set testEnv 1 0 "test" (.lit 1) (.lit 1) (.lit 0) freshWorld).1⟩

/-- Effect of a sequence of operations on `ServiceExists`, from any start
state: the identifier is registered at the end iff the last operation on it
is a `SetService`, or no operation is on it and it was registered before. -/
theorem serviceExists_runOps (gimple : Ptr) (id : String) (ops : List Op) :
    ∀ w : World σ, ServiceExists gimple id (runOps gimple ops w) = true ↔
      ((∃ before value after, ops = before ++ Op.set id value :: after ∧
          ∀ o ∈ after, o.target ≠ id) ∨
       ((∀ o ∈ ops, o.target ≠ id) ∧ ServiceExists gimple id w = true)) := by
  induction ops with
  | nil =>
    intro w
    simp [runOps]
  | cons o ops ih =>
    intro w
    have hstep : runOps gimple (o :: ops) w = runOps gimple ops (o.run gimple w) := rfl
    rw [hstep, ih]
    constructor
    · rintro (⟨before, value, after, hops, hafter⟩ | ⟨hall, hex⟩)
      · exact Or.inl ⟨o :: before, value, after, by rw [hops]; rfl, hafter⟩
      · cases o with
        | set id' value =>
          rw [Op.run, serviceExists_setService] at hex
          by_cases hid : id = id'
          · subst hid
            exact Or.inl ⟨[], value, ops, rfl, hall⟩
          · rw [if_neg hid] at hex
            refine Or.inr ⟨?_, hex⟩
            intro o ho
            rcases List.mem_cons.1 ho with h | h
            · subst h; exact fun h' => hid h'.symm
            · exact hall o h
        | unset id' =>
          rw [Op.run, serviceExists_unsetService] at hex
          by_cases hid : id = id'
          · rw [if_pos hid] at hex; cases hex
          · rw [if_neg hid] at hex
            refine Or.inr ⟨?_, hex⟩
            intro o ho
            rcases List.mem_cons.1 ho with h | h
            · subst h; exact fun h' => hid h'.symm
            · exact hall o h
    · rintro (⟨before, value, after, hops, hafter⟩ | ⟨hall, hex⟩)
      · cases before with
        | nil =>
          simp only [List.nil_append, List.cons.injEq] at hops
          obtain ⟨ho, hops⟩ := hops
          subst ho hops
          refine Or.inr ⟨hafter, ?_⟩
          rw [Op.run, serviceExists_setService, if_pos rfl]
        | cons b before =>
          simp only [List.cons_append, List.cons.injEq] at hops
          exact Or.inl ⟨before, value, after, hops.2, hafter⟩
      · have ho : o.target ≠ id := hall o (List.mem_cons_self _ _)
        refine Or.inr ⟨fun o' ho' => hall o' (List.mem_cons_of_mem _ ho'), ?_⟩
        cases o with
        | set id' value =>
          rw [Op.run, serviceExists_setService, if_neg (fun h => ho h.symm)]
          exact hex
        | unset id' =>
          rw [Op.run, serviceExists_unsetService, if_neg (fun h => ho h.symm)]
          exact hex

theorem serviceExists_New (id : String) (w : World σ) :
    ServiceExists (New w).1 id (New w).2 = false := by
  simp [ServiceExists, New, World.deref]

/-- C4: after any finite sequence of `SetService` and `UnsetService` calls on
a container made by `New`, `ServiceExists(id)` is true iff the sequence has
an operation on `id` and the last such operation is a `SetService`. -/
theorem C4_exists_reflects_last_op (w : World σ) (ops : List Op) (id : String) :
    ServiceExists (New w).1 id (runOps (New w).1 ops (New w).2) = true ↔
      ∃ before value after, ops = before ++ Op.set id value :: after ∧
        ∀ o ∈ after, o.target ≠ id := by
  rw [serviceExists_runOps, serviceExists_New]
  simp

/-- C4 at concrete inputs: set, unset and set again of `"test"` next to
another identifier. -/
theorem C4_exists_reflects_last_op_witness :
    ServiceExists 0 "test" (runOps 0 [] freshWorld) = false ∧
    ServiceExists 0 "test" (runOps 0 [.set "test" (.lit 1)] freshWorld) = true ∧
    ServiceExists 0 "test"
      (runOps 0 [.set "test" (.lit 1), .set "other" (.lit 0), .unset "test"] freshWorld) = false ∧
    ServiceExists 0 "test"
      (runOps 0 [.set "test" (.lit 1), .unset "test", .set "test" (.lit 0), .unset "other"]
        freshWorld) = true ∧
    (ServiceExists (New emptyWorld).1 "test"
        (runOps (New emptyWorld).1 [.set "test" (.lit 1), .unset "other"] (New emptyWorld).2) = true ↔
      ∃ before value after,
        [Op.set "test" (.lit 1), Op.unset "other"] = before ++ Op.set "test" value :: after ∧
        ∀ o ∈ after, o.target ≠ "test") :=
  ⟨by decide, by decide, by decide, by decide,
   C4_exists_reflects_last_op emptyWorld [.set "test" (.lit 1), .unset "other"] "test"⟩

/-- C5: `UnsetService` of an identifier that is not registered leaves the
whole state as it was (same identifiers, same factories, nothing else
touched), and a second `UnsetService(id)` changes nothing after the first. -/
theorem C5_unset_noop_idempotent (gimple : Ptr) (id : String) (w : World σ) :
    (ServiceExists gimple id w = false → UnsetService gimple id w = w) ∧
    UnsetService gimple id (UnsetService gimple id w) = UnsetService gimple id w := by
  have hnoop : ∀ w' : World σ, ServiceExists gimple id w' = false →
      UnsetService gimple id w' = w' := by
    intro w' h
    rw [serviceExists_eq_false_iff, AList.lookup_eq_none] at h
    have herase : (w'.deref gimple).values.erase id = (w'.deref gimple).values := by
      apply AList.ext
      simp only [AList.erase]
      exact List.kerase_of_not_mem_keys h
    unfold UnsetService
    rw [herase]
    simp [World.setValues, World.deref]
  refine ⟨hnoop w, hnoop _ ?_⟩
  rw [serviceExists_unsetService, if_pos rfl]

/-- C5 at concrete inputs: removing `"test"` from a container that holds only
`"other"` changes no lookup, and removing a registered `"test"` twice gives
the same as once. -/
theorem C5_unset_noop_idempotent_witness :
    ServiceExists 0 "test" (SetService 0 "other" (.lit 1) freshWorld) = false ∧
    UnsetService 0 "test" (SetService 0 "other" (.lit 1) freshWorld) =
      SetService 0 "other" (.lit 1) freshWorld ∧
    Keys 0 (UnsetService 0 "test" (SetService 0 "other" (.lit 1) freshWorld)) = ["other"] ∧
    Keys 0 (UnsetService 0 "test" (SetService 0 "test" (.lit 1) freshWorld)) = [] ∧
    UnsetService 0 "test" (UnsetService 0 "test" (SetService 0 "test" (.lit 1) freshWorld)) =
      UnsetService 0 "test" (SetService 0 "test" (.lit 1) freshWorld) :=
  ⟨by decide,
   (C5_unset_noop_idempotent 0 "test" (SetService 0 "other" (.lit 1) freshWorld)).1 (by decide),
   by decide, by decide,
   (C5_unset_noop_idempotent 0 "test" (SetService 0 "test" (.lit 1) freshWorld)).2⟩

/-! ## The closures of `Share`, `Protect` and `Extend` -/

/-- C6, as stated, fails, in two ways.  Literal 2 of `testEnv` returns nil
on its first call, so the closure of `Share` calls it on both invocations
(two calls, not at most one) and the invocations return nil and 1.
Literal 0 of `reentrantEnv` calls the shared closure itself on its first
run, while `obj` is still nil: both invocations return 1, a non-nil value,
and yet the literal has run twice. -/
theorem C6_share_counterexample :
    (Share 0 (.lit 2) freshWorld).1 = .share 0 (.lit 2) ∧
    (invoke testEnv 2 (.share 0 (.lit 2)) none (Share 0 (.lit 2) freshWorld).2).map
      (fun r => r.1) = some Value.nil ∧
    ((invoke testEnv 2 (.share 0 (.lit 2)) none (Share 0 (.lit 2) freshWorld).2).bind
      (fun r => invoke testEnv 2 (.share 0 (.lit 2)) none r.2)).map
      (fun r => (r.1, countCalls (.lit 2) r.2.trace)) = some (Value.int 1, 2) ∧
    (Share 0 (.lit 0) freshWorld).1 = .share 0 (.lit 0) ∧
    (invoke reentrantEnv 4 (.share 0 (.lit 0)) none (Share 0 (.lit 0) freshWorld).2).map
      (fun r => r.1) = some (Value.int 1) ∧
    ((invoke reentrantEnv 4 (.share 0 (.lit 0)) none (Share 0 (.lit 0) freshWorld).2).bind
      (fun r => invoke reentrantEnv 4 (.share 0 (.lit 0)) none r.2)).map
      (fun r => (r.1, countCalls (.lit 0) r.2.trace)) = some (Value.int 1, 2) ∧
    countCalls (.lit 0) (Share 0 (.lit 0) freshWorld).2.trace = 0 := by
  decide

/-- C6, amended: let `s` be the function returned by `Share(f)` and let its
first invocation return a non-nil value `v1`.  Then `v1` is what the call
of `f` made by `s` returned; the second invocation, with any container
argument and any allowance of nested calls, returns `v1` again and records
nothing but the call of `s`, so it does not call `f`; every call of `f`
lies within the one call of `f` that `s` made, and when that call led to
no further call of `f`, `f` was called exactly once over the two invocations. -/
theorem C6_share_caches_non_nil (env : Env σ) (n : Nat) (gimple : Ptr) (f s : Callable)
    (c1 c2 : Option Ptr) (w w1 w2 : World σ) (v1 : Value)
    (hs : Share gimple f w = (s, w1))
    (h1 : invoke env (n + 1) s c1 w1 = some (v1, w2))
    (hne : v1 ≠ Value.nil) :
    ∃ wf : World σ,
      invoke env n f c1 (w1.log (.call s c1)) = some (v1, wf) ∧
      (∀ m, invoke env (m + 1) s c2 w2 = some (v1, w2.log (.call s c2))) ∧
      countCalls f (w2.log (.call s c2)).trace = countCalls f wf.trace ∧
      countCalls f w1.trace + 1 ≤ countCalls f (w2.log (.call s c2)).trace ∧
      (countCalls f wf.trace = countCalls f (w1.log (.call s c1)).trace + 1 →
        countCalls f (w2.log (.call s c2)).trace = countCalls f w1.trace + 1) := by
  simp only [Share, Prod.mk.injEq] at hs
  obtain ⟨hs, hw1⟩ := hs
  subst hs
  have hcell : w1.cells w.nextCell = Value.nil := by
    rw [← hw1]; simp
  rw [invoke_share_unset env n _ _ _ _ hcell] at h1
  cases hf : invoke env n f c1 (w1.log (.call (.share w.nextCell f) c1)) with
  | none => rw [hf] at h1; cases h1
  | some rf =>
    rw [hf] at h1
    simp only [Option.map_some', Option.some.injEq, Prod.mk.injEq] at h1
    obtain ⟨hv1, hw2⟩ := h1
    have hcell2 : w2.cells w.nextCell = v1 := by
      rw [← hw2, hv1]; simp
    have htr2 : w2.trace = rf.2.trace := by rw [← hw2]
    have hlog : countCalls f (w1.log (.call (.share w.nextCell f) c1)).trace =
        countCalls f w1.trace := by
      simp only [World.log]
      rw [countCalls_append, countCalls_call_ne (share_ne_self _ _)]
      rfl
    have hlog2 : countCalls f (w2.log (.call (.share w.nextCell f) c2)).trace =
        countCalls f rf.2.trace := by
      simp only [World.log]
      rw [countCalls_append, countCalls_call_ne (share_ne_self _ _), htr2]
      rfl
    have hge := countCalls_invoke_le env n f c1 _ rf hf
    refine ⟨rf.2, by rw [← hv1], ?_, hlog2, ?_, ?_⟩
    · intro m
      rw [invoke_share_cached env m _ _ _ _ (by rw [hcell2]; exact hne), hcell2]
    · rw [hlog2]
      rw [hlog] at hge
      exact hge
    · intro hone
      rw [hlog2, hone, hlog]

/-- C6 amended, at the input of `TestShare`: the shared literal returns
`math{1, 2}`, both invocations return it, and the literal ran once. -/
theorem C6_share_caches_non_nil_witness :
    (invoke testEnv 2 (Share 0 (.lit 0) freshWorld).1 none (Share 0 (.lit 0) freshWorld).2).map
      (fun r => r.1) = some (Value.math ⟨1, 2⟩) ∧
    ((invoke testEnv 2 (.share 0 (.lit 0)) none (Share 0 (.lit 0) freshWorld).2).bind
      (fun r => invoke testEnv 2 (.share 0 (.lit 0)) none r.2)).map
      (fun r => (r.1, countCalls (.lit 0) r.2.trace)) = some (Value.math ⟨1, 2⟩, 1) ∧
    ∃ w2 : World Nat,
      invoke testEnv 2 (.share 0 (.lit 0)) none (Share 0 (.lit 0) freshWorld).2 =
        some (Value.math ⟨1, 2⟩, w2) ∧
      ∃ wf : World Nat,
        invoke testEnv 1 (.lit 0) none
          ((Share 0 (.lit 0) freshWorld).2.log (.call (.share 0 (.lit 0)) none)) =
          some (Value.math ⟨1, 2⟩, wf) ∧
        ∀ m, invoke testEnv (m + 1) (.share 0 (.lit 0)) none w2 =
          some (Value.math ⟨1, 2⟩, w2.log (.call (.share 0 (.lit 0)) none)) :=
  ⟨by decide, by decide,
   ((invoke testEnv 2 (.share 0 (.lit 0)) none (Share 0 (.lit 0) freshWorld).2).get
      (by decide)).2, rfl,
   (C6_share_caches_non_nil testEnv 1 0 (.lit 0) (.share 0 (.lit 0)) none none freshWorld
      (Share 0 (.lit 0) freshWorld).2 _ (Value.math ⟨1, 2⟩) rfl rfl (by decide)).imp
      (fun _ h => ⟨h.1, h.2.1⟩)⟩

/-- C7: let `s` be the function returned by `Share(f)` and let its first
invocation return nil (that is, the call of `f` made by `s` returned nil).
Then the second invocation is again a call of `f`: it returns exactly when
that second call of `f` returns, and with its value, not a cached one.
When it has returned, the trace shows the call of `f` in each of the two
invocations, so `f` has been called at least twice. -/
theorem C7_share_nil_reinvokes (env : Env σ) (n : Nat) (gimple : Ptr) (f s : Callable)
    (c1 c2 : Option Ptr) (w w1 w2 : World σ) (v1 : Value)
    (hs : Share gimple f w = (s, w1))
    (h1 : invoke env (n + 1) s c1 w1 = some (v1, w2))
    (hnil : v1 = Value.nil) :
    (∃ wf : World σ, invoke env n f c1 (w1.log (.call s c1)) = some (v1, wf)) ∧
    (∀ m, (invoke env (m + 1) s c2 w2).map (fun r => r.1) =
      (invoke env m f c2 (w2.log (.call s c2))).map (fun r => r.1)) ∧
    (∀ m v2 w3, invoke env (m + 1) s c2 w2 = some (v2, w3) →
      (∃ wf2 : World σ, invoke env m f c2 (w2.log (.call s c2)) = some (v2, wf2)) ∧
      (∃ during1 during2, w3.trace =
        w1.trace ++ Event.call s c1 :: Event.call f c1 :: during1 ++
          Event.call s c2 :: Event.call f c2 :: during2) ∧
      countCalls f w1.trace + 2 ≤ countCalls f w3.trace) := by
  simp only [Share, Prod.mk.injEq] at hs
  obtain ⟨hs, hw1⟩ := hs
  subst hs
  have hcell : w1.cells w.nextCell = Value.nil := by
    rw [← hw1]; simp
  rw [invoke_share_unset env n _ _ _ _ hcell] at h1
  cases hf : invoke env n f c1 (w1.log (.call (.share w.nextCell f) c1)) with
  | none => rw [hf] at h1; cases h1
  | some rf =>
    rw [hf] at h1
    simp only [Option.map_some', Option.some.injEq, Prod.mk.injEq] at h1
    obtain ⟨hv1, hw2⟩ := h1
    have hcell2 : w2.cells w.nextCell = Value.nil := by
      rw [← hw2, hv1, hnil]; simp
    have htr2 : w2.trace = rf.2.trace := by rw [← hw2]
    obtain ⟨d1, hd1⟩ := invoke_trace env n f c1 _ rf hf
    have hsecond : ∀ m, invoke env (m + 1) (.share w.nextCell f) c2 w2 =
        (invoke env m f c2 (w2.log (.call (.share w.nextCell f) c2))).map
          (fun r => (r.1, { r.2 with cells := Function.update r.2.cells w.nextCell r.1 })) :=
      fun m => invoke_share_unset env m _ _ _ _ hcell2
    refine ⟨⟨rf.2, by rw [← hv1]⟩, ?_, ?_⟩
    · intro m
      rw [hsecond m]
      cases invoke env m f c2 (w2.log (.call (.share w.nextCell f) c2)) <;> rfl
    · intro m v2 w3 h2
      rw [hsecond m] at h2
      cases hf2 : invoke env m f c2 (w2.log (.call (.share w.nextCell f) c2)) with
      | none => rw [hf2] at h2; cases h2
      | some rf2 =>
        rw [hf2] at h2
        simp only [Option.map_some', Option.some.injEq, Prod.mk.injEq] at h2
        obtain ⟨hv2, hw3⟩ := h2
        obtain ⟨d2, hd2⟩ := invoke_trace env m f c2 _ rf2 hf2
        have htr3 : w3.trace = w1.trace ++ Event.call (.share w.nextCell f) c1 ::
            Event.call f c1 :: d1 ++
            Event.call (.share w.nextCell f) c2 :: Event.call f c2 :: d2 := by
          rw [← hw3]
          simp only []
          rw [hd2]
          simp only [World.log]
          rw [htr2, hd1]
          simp [World.log]
        refine ⟨⟨rf2.2, by rw [← hv2]⟩, ⟨d1, d2, htr3⟩, ?_⟩
        have hone : ∀ (g : Callable) (ca cb : Option Ptr) (d : List Event),
            1 ≤ countCalls f (Event.call g ca :: Event.call f cb :: d) := by
          intro g ca cb d
          rw [countCalls_cons, countCalls_cons f (Event.call f cb), countCalls_call_self]
          omega
        have h1' := hone (.share w.nextCell f) c1 c1 d1
        have h2' := hone (.share w.nextCell f) c2 c2 d2
        rw [htr3, countCalls_append, countCalls_append]
        omega

/-- C7 at a concrete input: literal 2 returns nil first and 1 on its second
call; shared, the second invocation returns 1 and the literal ran twice. -/
theorem C7_share_nil_reinvokes_witness :
    ((invoke testEnv 2 (.share 0 (.lit 2)) none (Share 0 (.lit 2) freshWorld).2).bind
      (fun r => invoke testEnv 2 (.share 0 (.lit 2)) none r.2)).map
      (fun r => (r.1, countCalls (.lit 2) r.2.trace)) = some (Value.int 1, 2) ∧
    ∃ w2 : World Nat,
      invoke testEnv 2 (.share 0 (.lit 2)) none (Share 0 (.lit 2) freshWorld).2 =
        some (Value.nil, w2) ∧
      (invoke testEnv 2 (.share 0 (.lit 2)) none w2).map (fun r => r.1) = some (Value.int 1) ∧
      ∀ m, (invoke testEnv (m + 1) (.share 0 (.lit 2)) none w2).map (fun r => r.1) =
        (invoke testEnv m (.lit 2) none (w2.log (.call (.share 0 (.lit 2)) none))).map
          (fun r => r.1) :=
  ⟨by decide,
   ((invoke testEnv 2 (.share 0 (.lit 2)) none (Share 0 (.lit 2) freshWorld).2).get
      (by decide)).2, rfl, by decide,
   (C7_share_nil_reinvokes testEnv 1 0 (.lit 2) (.share 0 (.lit 2)) none none freshWorld
      (Share 0 (.lit 2) freshWorld).2 _ Value.nil rfl rfl rfl).2.1⟩

/-- C8: invoking the function returned by `Protect(f)`, on any container
argument and in any state, returns `f` itself as a value and only records
that one call: `f` is not called.  A value so returned is `f`, so calling
it gives what calling `f` gives.  After `SetService(id, Protect(f))`,
`GetService(id)` returns `f` with a nil error, again without calling `f`. -/
theorem C8_protect_returns_callback (env : Env σ) (n : Nat) (gimple : Ptr) (id : String)
    (f : Callable) (c : Option Ptr) (w w' : World σ) :
    (Protect gimple f w).2 = w ∧
    invoke env (n + 1) (Protect gimple f w).1 c w' =
      some (Value.callable f, w'.log (.call (Protect gimple f w).1 c)) ∧
    countCalls f (w'.log (.call (Protect gimple f w).1 c)).trace = countCalls f w'.trace ∧
    (∀ (g : Callable) (r : Value × World σ),
      invoke env (n + 1) (Protect gimple f w).1 c w' = some r → r.1 = Value.callable g →
      ∀ (m : Nat) (c' : Option Ptr) (w'' : World σ),
        invoke env m g c' w'' = invoke env m f c' w'') ∧
    GetService (perform env (n + 1)) gimple id
        (SetService gimple id (Protect gimple f w).1 w') =
      some ((Value.callable f, none),
       (SetService gimple id (Protect gimple f w).1 w').log
         (.call (Protect gimple f w).1 (some gimple))) ∧
    countCalls f
        ((SetService gimple id (Protect gimple f w).1 w').log
          (.call (Protect gimple f w).1 (some gimple))).trace =
      countCalls f w'.trace := by
  have hinv : ∀ (c' : Option Ptr) (w'' : World σ),
      invoke env (n + 1) (.protect f) c' w'' =
        some (Value.callable f, w''.log (.call (.protect f) c')) :=
    fun c' w'' => invoke_protect env n f c' w''
  have hcount : ∀ (c' : Option Ptr) (w'' : World σ),
      countCalls f (w''.log (.call (.protect f) c')).trace = countCalls f w''.trace := by
    intro c' w''
    simp only [World.log]
    rw [countCalls_append, countCalls_call_ne (protect_ne_self f)]
    rfl
  refine ⟨rfl, hinv c w', hcount c w', ?_, ?_, ?_⟩
  · intro g r hr hg m c' w''
    have hr' : invoke env (n + 1) (.protect f) c w' = some r := hr
    rw [hinv] at hr'
    cases hr'
    cases hg
    rfl
  · show GetService (perform env (n + 1)) gimple id (SetService gimple id (.protect f) w') = _
    rw [getService_setService, hinv]
    rfl
  · exact hcount (some gimple) (SetService gimple id (.protect f) w')

/-- C8 at the input of `TestProtect`: the protected literal returns
`"My Service"`; invoking the protecting closure returns the literal, and
calling that returns `"My Service"`. -/
theorem C8_protect_returns_callback_witness :
    (invoke testEnv 1 (Protect 0 (.lit 1) freshWorld).1 none freshWorld).map
      (fun r => (r.1, r.2.trace)) =
      some (Value.callable (.lit 1), [.call (.protect (.lit 1)) none]) ∧
    (invoke testEnv 1 (.lit 1) none freshWorld).map (fun r => r.1) =
      some (Value.str "My Service") ∧
    (GetService (perform testEnv 1) 0 "test"
      (SetService 0 "test" (Protect 0 (.lit 1) freshWorld).1 freshWorld)).map (fun r => r.1) =
      some (Value.callable (.lit 1), none) ∧
    invoke testEnv 1 (Protect 0 (.lit 1) freshWorld).1 none freshWorld =
      some (Value.callable (.lit 1),
        freshWorld.log (.call (Protect 0 (.lit 1) freshWorld).1 none)) :=
  ⟨by decide, by decide, by decide,
   (C8_protect_returns_callback testEnv 0 0 "test" (.lit 1) none freshWorld freshWorld).2.1⟩

/-- C9: when `id` holds the factory `f`, `Extend(id, ext)` returns a nil
error and a function `e` such that, for every container argument `c` and in
every state, calling `e` is calling `f` on `c` and then `ext` on the value
`f` returned and the same `c`; when the call returns, the trace shows the
call of `f` before the call of `ext`, with exactly that value and that `c`. -/
theorem C9_extend_composes (env : Env σ) (gimple : Ptr) (id : String) (f : Callable)
    (ext : ExtendCallable) (w : World σ)
    (hreg : (w.deref gimple).values.lookup id = some f) :
    ∃ e : Callable,
      (Extend gimple id ext w).1 = (some e, none) ∧
      ∀ (n : Nat) (c : Option Ptr) (w' : World σ),
        invoke env (n + 1) e c w' =
          (invoke env n f c (w'.log (.call e c))).bind
            (fun r => invokeExt env n ext r.1 c r.2) ∧
        ∀ r, invoke env (n + 1) e c w' = some r →
          ∃ (vf : Value) (wf : World σ) (during after : List Event),
            invoke env n f c (w'.log (.call e c)) = some (vf, wf) ∧
            invokeExt env n ext vf c wf = some r ∧
            r.2.trace =
              w'.trace ++ [Event.call e c] ++ Event.call f c :: during ++
                Event.callExt ext vf c :: after := by
  refine ⟨.extender f ext, by simp [Extend, hreg], ?_⟩
  intro n c w'
  refine ⟨invoke_extender env n f ext c w', ?_⟩
  intro r hr
  rw [invoke_extender] at hr
  cases hf : invoke env n f c (w'.log (.call (.extender f ext) c)) with
  | none => rw [hf] at hr; cases hr
  | some rf =>
    rw [hf] at hr
    have hr' : invokeExt env n ext rf.1 c rf.2 = some r := hr
    obtain ⟨during, hd⟩ := invoke_trace env n f c _ rf hf
    obtain ⟨after, ha⟩ := invokeExt_trace env n ext rf.1 c rf.2 r hr'
    refine ⟨rf.1, rf.2, during, after, rfl, hr', ?_⟩
    rw [ha, hd]
    simp [World.log]

/-- C9 at the input of `TestExtend`: `"math-service"` holds the literal that
returns `math{1, 2}`, the callback maps `m` to `math{m.sum(), 10}`; the
extended factory, called with a nil container, returns `math{3, 10}`, whose
sum is 13. -/
theorem C9_extend_composes_witness :
    (SetService 0 "math-service" (.lit 0) freshWorld |>.deref 0).values.lookup "math-service" =
      some (.lit 0) ∧
    (Extend 0 "math-service" (.lit 0) (SetService 0 "math-service" (.lit 0) freshWorld)).1 =
      (some (.extender (.lit 0) (.lit 0)), none) ∧
    (invoke testEnv 2 (.extender (.lit 0) (.lit 0)) none
      (SetService 0 "math-service" (.lit 0) freshWorld)).map (fun r => (r.1, r.2.trace)) =
      some (Value.math ⟨3, 10⟩,
        [.call (.extender (.lit 0) (.lit 0)) none, .call (.lit 0) none,
         .callExt (.lit 0) (Value.math ⟨1, 2⟩) none]) ∧
    math.sum ⟨3, 10⟩ = 13 ∧
    ∃ e : Callable,
      (Extend 0 "math-service" (.lit 0) (SetService 0 "math-service" (.lit 0) freshWorld)).1 =
        (some e, none) ∧
      ∀ (n : Nat) (c : Option Ptr) (w' : World Nat),
        invoke testEnv (n + 1) e c w' =
          (invoke testEnv n (.lit 0) c (w'.log (.call e c))).bind
            (fun r => invokeExt testEnv n (.lit 0) r.1 c r.2) :=
  ⟨by decide, by decide, by decide, by decide,
   (C9_extend_composes testEnv 0 "math-service" (.lit 0) (.lit 0)
     (SetService 0 "math-service" (.lit 0) freshWorld) (by decide)).imp
     (fun _ h => ⟨h.1, fun n c w' => (h.2 n c w').1⟩)⟩

/-- C10: `Extend` returns the state it was given, whether it succeeds or
fails: afterwards `ServiceExists`, `Raw` and `Keys` answer as before for
every container and identifier, and `GetService(id)` does what it did
before; when `id` holds `f` it is the call of `f` on the container, with a
nil error. -/
theorem C10_extend_leaves_registry (env : Env σ) (n : Nat) (gimple : Ptr) (id : String)
    (ext : ExtendCallable) (w : World σ) :
    (Extend gimple id ext w).2 = w ∧
    (∀ (gimple' : Ptr) (id' : String),
      ServiceExists gimple' id' (Extend gimple id ext w).2 = ServiceExists gimple' id' w ∧
      (Raw gimple' id' (Extend gimple id ext w).2).1 = (Raw gimple' id' w).1 ∧
      Keys gimple' (Extend gimple id ext w).2 = Keys gimple' w) ∧
    GetService (perform env n) gimple id (Extend gimple id ext w).2 =
      GetService (perform env n) gimple id w ∧
    (∀ f : Callable, (w.deref gimple).values.lookup id = some f →
      GetService (perform env n) gimple id (Extend gimple id ext w).2 =
        (invoke env n f (some gimple) w).map (fun r => ((r.1, none), r.2))) := by
  have hw : (Extend gimple id ext w).2 = w := by
    unfold Extend
    cases (w.deref gimple).values.lookup id <;> rfl
  rw [hw]
  refine ⟨rfl, fun _ _ => ⟨rfl, rfl, rfl⟩, rfl, ?_⟩
  intro f hf
  exact getService_of_lookup _ gimple id f w hf

/-- C10 at the input of `TestExtend`: after extending `"math-service"`,
`GetService` still returns `math{1, 2}` (sum 3), while the extended factory
returns `math{3, 10}`; a failed `Extend` of an unknown identifier leaves the
keys as they were. -/
theorem C10_extend_leaves_registry_witness :
    (GetService (perform testEnv 2) 0 "math-service"
      (Extend 0 "math-service" (.lit 0)
        (SetService 0 "math-service" (.lit 0) freshWorld)).2).map (fun r => r.1) =
      some (Value.math ⟨1, 2⟩, none) ∧
    (invoke testEnv 2 (.extender (.lit 0) (.lit 0)) (some 0)
      (Extend 0 "math-service" (.lit 0)
        (SetService 0 "math-service" (.lit 0) freshWorld)).2).map (fun r => r.1) =
      some (Value.math ⟨3, 10⟩) ∧
    Keys 0 (Extend 0 "unknown" (.lit 0) (SetService 0 "math-service" (.lit 0) freshWorld)).2 =
      ["math-service"] ∧
    (Extend 0 "math-service" (.lit 0) (SetService 0 "math-service" (.lit 0) freshWorld)).2 =
      SetService 0 "math-service" (.lit 0) freshWorld :=
  ⟨by decide, by decide, by decide,
   (C10_extend_leaves_registry testEnv 2 0 "math-service" (.lit 0)
     (SetService 0 "math-service" (.lit 0) freshWorld)).1⟩

/-! ## The registry as a whole -/

theorem lookup_setService (gimple gimple' : Ptr) (id id' : String) (f : Callable)
    (w : World σ) :
    ((SetService gimple id f w).deref gimple').values.lookup id' =
      if gimple' = gimple ∧ id' = id then some f
      else (w.deref gimple').values.lookup id' := by
  by_cases hg : gimple' = gimple
  · subst hg
    unfold SetService
    rw [lookup_setValues]
    by_cases hid : id' = id
    · subst hid; simp [AList.lookup_insert]
    · simp [hid, AList.lookup_insert_ne hid]
  · simp [SetService, World.setValues, World.deref, Function.update_noteq hg, hg]

theorem lookup_unsetService (gimple gimple' : Ptr) (id id' : String) (w : World σ) :
    ((UnsetService gimple id w).deref gimple').values.lookup id' =
      if gimple' = gimple ∧ id' = id then none
      else (w.deref gimple').values.lookup id' := by
  by_cases hg : gimple' = gimple
  · subst hg
    unfold UnsetService
    rw [lookup_setValues]
    by_cases hid : id' = id
    · subst hid; simp [AList.lookup_erase]
    · simp [hid, AList.lookup_erase_ne hid]
  · simp [UnsetService, World.setValues, World.deref, Function.update_noteq hg, hg]

theorem mem_keys_iff_serviceExists (gimple : Ptr) (id : String) (w : World σ) :
    id ∈ Keys gimple w ↔ ServiceExists gimple id w = true := by
  unfold Keys ServiceExists
  rw [← AList.mem_keys, AList.lookup_isSome]

/-- States that answer every lookup alike answer `ServiceExists` and `Raw`
alike and have the same keys up to order. -/
theorem same_lookup_same_answers (gimple : Ptr) (w1 w2 : World σ)
    (h : ∀ id, (w1.deref gimple).values.lookup id = (w2.deref gimple).values.lookup id) :
    (∀ id, ServiceExists gimple id w1 = ServiceExists gimple id w2) ∧
    (∀ id, (Raw gimple id w1).1 = (Raw gimple id w2).1) ∧
    (Keys gimple w1).Perm (Keys gimple w2) := by
  have hex : ∀ id, ServiceExists gimple id w1 = ServiceExists gimple id w2 := by
    intro id
    simp [ServiceExists, h id]
  refine ⟨hex, ?_, ?_⟩
  · intro id
    simp [Raw, h id]
    cases (w2.deref gimple).values.lookup id <;> rfl
  · have hn1 : (Keys gimple w1).Nodup := AList.keys_nodup _
    have hn2 : (Keys gimple w2).Nodup := AList.keys_nodup _
    refine (List.perm_ext_iff_of_nodup hn1 hn2).2 ?_
    intro id
    rw [mem_keys_iff_serviceExists, mem_keys_iff_serviceExists, hex id]

/-- C11: `Keys()` has no duplicates; an identifier is in `Keys()` iff
`ServiceExists` holds for it; so its length is the size of any finite set
that is exactly the registered identifiers, and two containers with the
same registered identifiers, however they were registered, have the same
keys up to order and therefore equally many. -/
theorem C11_keys_exact (gimple : Ptr) (w : World σ) :
    (Keys gimple w).Nodup ∧
    (∀ id, id ∈ Keys gimple w ↔ ServiceExists gimple id w = true) ∧
    (∀ ids : Finset String, (∀ id, id ∈ ids ↔ ServiceExists gimple id w = true) →
      (Keys gimple w).length = ids.card) ∧
    (∀ (gimple' : Ptr) (w' : World σ),
      (∀ id, ServiceExists gimple' id w' = ServiceExists gimple id w) →
      (Keys gimple' w').Perm (Keys gimple w) ∧
      (Keys gimple' w').length = (Keys gimple w).length) := by
  have hnodup : (Keys gimple w).Nodup := AList.keys_nodup _
  refine ⟨hnodup, fun id => mem_keys_iff_serviceExists gimple id w, ?_, ?_⟩
  · intro ids hids
    have hset : (Keys gimple w).toFinset = ids := by
      ext id
      rw [List.mem_toFinset, mem_keys_iff_serviceExists, hids]
    rw [← hset, List.toFinset_card_of_nodup hnodup]
  · intro gimple' w' hsame
    have hnodup' : (Keys gimple' w').Nodup := AList.keys_nodup _
    have hperm : (Keys gimple' w').Perm (Keys gimple w) := by
      refine (List.perm_ext_iff_of_nodup hnodup' hnodup).2 ?_
      intro id
      rw [mem_keys_iff_serviceExists, mem_keys_iff_serviceExists, hsame]
    exact ⟨hperm, hperm.length_eq⟩

/-- C11 at the input of `TestKeys`: `"test 1"`, `"test 2"` and `"test 1"` again
give two keys; after `UnsetService("test 2")` the keys are exactly `"test 1"`. -/
theorem C11_keys_exact_witness :
    (Keys 0 freshWorld).length = 0 ∧
    (Keys 0 (SetService 0 "test 1" (.lit 1) (SetService 0 "test 2" (.lit 1)
      (SetService 0 "test 1" (.lit 1) freshWorld)))).length = 2 ∧
    Keys 0 (UnsetService 0 "test 2" (SetService 0 "test 1" (.lit 1)
      (SetService 0 "test 2" (.lit 1) (SetService 0 "test 1" (.lit 1) freshWorld)))) =
      ["test 1"] ∧
    (Keys 0 (SetService 0 "test 1" (.lit 1) (SetService 0 "test 2" (.lit 1)
      (SetService 0 "test 1" (.lit 1) freshWorld)))).Nodup :=
  ⟨by decide, by decide, by decide,
   (C11_keys_exact 0 (SetService 0 "test 1" (.lit 1) (SetService 0 "test 2" (.lit 1)
      (SetService 0 "test 1" (.lit 1) freshWorld)))).1⟩

/-- C12: after `SetService(id, f)`, `Raw(id)` returns `f` itself and a nil
error and leaves the state, trace included, as it was: nothing is called.
And whenever `id` is registered, `Raw(id)` returns some function with a nil
error, and `GetService(id)` is the call of that function on the container. -/
theorem C12_raw_returns_factory (env : Env σ) (n : Nat) (gimple : Ptr) (id : String)
    (f : Callable) (w : World σ) :
    Raw gimple id (SetService gimple id f w) = ((some f, none), SetService gimple id f w) ∧
    (Raw gimple id (SetService gimple id f w)).2.trace = w.trace ∧
    (ServiceExists gimple id w = true →
      ∃ value : Callable,
        Raw gimple id w = ((some value, none), w) ∧
        GetService (perform env n) gimple id w =
          (invoke env n value (some gimple) w).map (fun r => ((r.1, none), r.2))) := by
  have hl : ((SetService gimple id f w).deref gimple).values.lookup id = some f := by
    rw [lookup_setService]; simp
  have hraw : Raw gimple id (SetService gimple id f w) =
      ((some f, none), SetService gimple id f w) := by
    simp [Raw, hl]
  refine ⟨hraw, by rw [hraw]; rfl, ?_⟩
  intro hex
  obtain ⟨value, hv⟩ := (serviceExists_eq_true_iff gimple id w).1 hex
  exact ⟨value, by simp [Raw, hv], getService_of_lookup _ gimple id value w hv⟩

/-- C12 at the input of `TestRaw`: two services registered, `Raw` gives the
first literal back, and calling it gives `"My Service"`, as `GetService` does. -/
theorem C12_raw_returns_factory_witness :
    (Raw 0 "math-service" (SetService 0 "math-service2" (.lit 0)
      (SetService 0 "math-service" (.lit 1) freshWorld))).1 = (some (.lit 1), none) ∧
    (invoke testEnv 1 (.lit 1) none freshWorld).map (fun r => r.1) =
      some (Value.str "My Service") ∧
    (GetService (perform testEnv 1) 0 "math-service" (SetService 0 "math-service2" (.lit 0)
      (SetService 0 "math-service" (.lit 1) freshWorld))).map (fun r => r.1) =
      some (Value.str "My Service", none) ∧
    Raw 0 "math-service" (SetService 0 "math-service" (.lit 1) freshWorld) =
      ((some (.lit 1), none), SetService 0 "math-service" (.lit 1) freshWorld) :=
  ⟨by decide, by decide, by decide,
   (C12_raw_returns_factory testEnv 1 0 "math-service" (.lit 1) freshWorld).1⟩

/-- C13: `SetService(id, f)` and `UnsetService(id)` on a container change the
entry for `id` of that container only: for any other identifier, and for
any other container, `ServiceExists` and `Raw` answer as before; the
captured variables, the caller's variables and the trace are untouched. -/
theorem C13_set_unset_frame (gimple gimple' : Ptr) (id id' : String) (f : Callable)
    (w : World σ) (h : gimple' ≠ gimple ∨ id' ≠ id) :
    ServiceExists gimple' id' (SetService gimple id f w) = ServiceExists gimple' id' w ∧
    (Raw gimple' id' (SetService gimple id f w)).1 = (Raw gimple' id' w).1 ∧
    ServiceExists gimple' id' (UnsetService gimple id w) = ServiceExists gimple' id' w ∧
    (Raw gimple' id' (UnsetService gimple id w)).1 = (Raw gimple' id' w).1 ∧
    (SetService gimple id f w).trace = w.trace ∧
    (SetService gimple id f w).cells = w.cells ∧
    (SetService gimple id f w).store.vars = w.store.vars ∧
    (UnsetService gimple id w).trace = w.trace ∧
    (UnsetService gimple id w).cells = w.cells ∧
    (UnsetService gimple id w).store.vars = w.store.vars := by
  have hcond : ¬ (gimple' = gimple ∧ id' = id) := by
    rintro ⟨h1, h2⟩
    rcases h with h | h
    · exact h h1
    · exact h h2
  have hset := lookup_setService gimple gimple' id id' f w
  have hunset := lookup_unsetService gimple gimple' id id' w
  rw [if_neg hcond] at hset hunset
  refine ⟨?_, ?_, ?_, ?_, rfl, rfl, rfl, rfl, rfl, rfl⟩
  · simp [ServiceExists, hset]
  · simp only [Raw, hset]
    cases (w.deref gimple').values.lookup id' <;> rfl
  · simp [ServiceExists, hunset]
  · simp only [Raw, hunset]
    cases (w.deref gimple').values.lookup id' <;> rfl

/-- C13 at the input of `TestRaw`: registering `"math-service2"` does not
change what `Raw("math-service")` returns. -/
theorem C13_set_unset_frame_witness :
    (Raw 0 "math-service" (SetService 0 "math-service2" (.lit 0)
      (SetService 0 "math-service" (.lit 1) freshWorld))).1 = (some (.lit 1), none) ∧
    (Raw 0 "math-service" (UnsetService 0 "math-service2"
      (SetService 0 "math-service" (.lit 1) freshWorld))).1 = (some (.lit 1), none) ∧
    (Raw 0 "math-service" (SetService 0 "math-service2" (.lit 0)
      (SetService 0 "math-service" (.lit 1) freshWorld))).1 =
      (Raw 0 "math-service" (SetService 0 "math-service" (.lit 1) freshWorld)).1 :=
  ⟨by decide, by decide,
   (C13_set_unset_frame 0 0 "math-service2" "math-service" (.lit 0)
     (SetService 0 "math-service" (.lit 1) freshWorld) (Or.inr (by decide))).2.1⟩

/-- C14: the container returned by `New` has no keys, `ServiceExists` is false
for every identifier, and `GetService`, `Raw` and `Extend` return nil and
the not-found error for every identifier. -/
theorem C14_new_is_empty (env : Env σ) (n : Nat) (w : World σ) (id : String)
    (ext : ExtendCallable) :
    Keys (New w).1 (New w).2 = [] ∧
    (Keys (New w).1 (New w).2).length = 0 ∧
    ServiceExists (New w).1 id (New w).2 = false ∧
    GetService (perform env n) (New w).1 id (New w).2 =
      some ((Value.nil, some (errors_New ("There is no service with id " ++ id))), (New w).2) ∧
    (Raw (New w).1 id (New w).2).1 =
      (none, some (errors_New ("There is no service with id " ++ id))) ∧
    (Extend (New w).1 id ext (New w).2).1 =
      (none, some (errors_New ("There is no service with id " ++ id))) := by
  have hl : (((New w).2).deref (New w).1).values.lookup id = none := by
    simp [New, World.deref]
  have hk : Keys (New w).1 (New w).2 = [] := by
    simp [Keys, New, World.deref]
  refine ⟨hk, by rw [hk]; rfl, serviceExists_New id w,
    getService_of_lookup_none _ _ id _ hl, ?_, ?_⟩
  · simp [Raw, hl]
  · simp [Extend, hl]

/-- C14 at the inputs of `TestKeys` and `TestServiceExists`. -/
theorem C14_new_is_empty_witness :
    (New emptyWorld).1 = 0 ∧
    (Keys 0 freshWorld).length = 0 ∧
    ServiceExists 0 "test" freshWorld = false ∧
    (GetService (perform testEnv 1) 0 "test" freshWorld).map (fun r => r.1) =
      some (Value.nil, some ⟨"There is no service with id test"⟩) ∧
    Keys (New emptyWorld).1 (New emptyWorld).2 = [] :=
  ⟨by decide, by decide, by decide, by decide,
   (C14_new_is_empty testEnv 1 emptyWorld "test" (.lit 0)).1⟩

/-- C18: for distinct identifiers `a` and `b`, registering `a` then `b` and
registering `b` then `a` give states in which `ServiceExists` and `Raw`
answer alike for every identifier and `Keys` is the same up to order; and
`SetService(a, f)` followed by `UnsetService(b)` gives the very state that
the two calls give in the other order. -/
theorem C18_order_irrelevant (gimple : Ptr) (a b : String) (f g : Callable) (w : World σ)
    (hab : a ≠ b) :
    (∀ id, ServiceExists gimple id (SetService gimple b g (SetService gimple a f w)) =
      ServiceExists gimple id (SetService gimple a f (SetService gimple b g w))) ∧
    (∀ id, (Raw gimple id (SetService gimple b g (SetService gimple a f w))).1 =
      (Raw gimple id (SetService gimple a f (SetService gimple b g w))).1) ∧
    (Keys gimple (SetService gimple b g (SetService gimple a f w))).Perm
      (Keys gimple (SetService gimple a f (SetService gimple b g w))) ∧
    (∀ id, id ∈ Keys gimple (SetService gimple b g (SetService gimple a f w)) ↔
      id ∈ Keys gimple (SetService gimple a f (SetService gimple b g w))) ∧
    UnsetService gimple b (SetService gimple a f w) =
      SetService gimple a f (UnsetService gimple b w) := by
  have hlook : ∀ id,
      ((SetService gimple b g (SetService gimple a f w)).deref gimple).values.lookup id =
      ((SetService gimple a f (SetService gimple b g w)).deref gimple).values.lookup id := by
    intro id
    simp only [lookup_setService, true_and]
    by_cases h1 : id = a
    · subst h1; simp [hab]
    · simp [h1]
  obtain ⟨hex, hraw, hperm⟩ := same_lookup_same_answers gimple _ _ hlook
  refine ⟨hex, hraw, hperm, fun id => hperm.mem_iff, ?_⟩
  have hentries : ((w.deref gimple).values.insert a f).erase b =
      ((w.deref gimple).values.erase b).insert a f := by
    apply AList.ext
    simp only [AList.erase, AList.insert_entries]
    rw [List.kerase_cons_ne (fun h => hab h.symm), List.kerase_kerase]
  unfold UnsetService SetService
  rw [lookup_setValues, lookup_setValues, hentries]
  simp [World.setValues]

/-- C18 at concrete inputs: `"a"` and `"b"` registered in both orders. -/
theorem C18_order_irrelevant_witness :
    Keys 0 (SetService 0 "b" (.lit 1) (SetService 0 "a" (.lit 0) freshWorld)) = ["b", "a"] ∧
    Keys 0 (SetService 0 "a" (.lit 0) (SetService 0 "b" (.lit 1) freshWorld)) = ["a", "b"] ∧
    (Raw 0 "a" (SetService 0 "b" (.lit 1) (SetService 0 "a" (.lit 0) freshWorld))).1 =
      (some (.lit 0), none) ∧
    (Raw 0 "a" (SetService 0 "a" (.lit 0) (SetService 0 "b" (.lit 1) freshWorld))).1 =
      (some (.lit 0), none) ∧
    (Keys 0 (SetService 0 "b" (.lit 1) (SetService 0 "a" (.lit 0) freshWorld))).Perm
      (Keys 0 (SetService 0 "a" (.lit 0) (SetService 0 "b" (.lit 1) freshWorld))) :=
  ⟨by decide, by decide, by decide, by decide,
   (C18_order_irrelevant 0 "a" "b" (.lit 0) (.lit 1) freshWorld (by decide)).2.2.1⟩

/-! ## Repeated lookups -/

/-- An access to an identifier that holds `h` is a call of `h`, with a nil error. -/
theorem access_run_of_lookup (apply : Event → World σ → Option (Value × World σ))
    (gimple : Ptr) (id : String) (a : Access)
    (h : Callable) (w : World σ) (hl : (w.deref gimple).values.lookup id = some h) :
    a.run apply gimple id w =
      (apply (.call h (a.context gimple)) w).map (fun r => ((r.1, none), r.2)) := by
  cases a with
  | get => exact getService_of_lookup apply gimple id h w hl
  | raw c =>
    simp only [Access.run, Access.context, Raw, hl]
    cases apply (.call h c) w <;> rfl

theorem runAccesses_cons (apply : Event → World σ → Option (Value × World σ))
    (gimple : Ptr) (id : String) (a : Access) (rest : List Access) (w : World σ)
    (r : (Value × Option error) × World σ) (h : a.run apply gimple id w = some r) :
    runAccesses apply gimple id (a :: rest) w =
      (runAccesses apply gimple id rest r.2).map (fun rs => (r.1 :: rs.1, rs.2)) := by
  simp only [runAccesses, h]
  cases runAccesses apply gimple id rest r.2 <;> rfl

/-- `n` calls of `GetService(id)` in a row, when `id` holds `f` and calls of
`f` return and leave it so. -/
theorem getService_repeated (env : Env σ) (m : Nat) (gimple : Ptr) (id : String)
    (f : Callable)
    (hkeep : ∀ (w' : World σ) (r : Value × World σ),
      (w'.deref gimple).values.lookup id = some f →
      invoke env m f (some gimple) w' = some r →
      (r.2.deref gimple).values.lookup id = some f)
    (hterm : ∀ w' : World σ, (w'.deref gimple).values.lookup id = some f →
      ∃ r, invoke env m f (some gimple) w' = some r)
    (n : Nat) :
    ∀ w : World σ, (w.deref gimple).values.lookup id = some f →
      ∃ (rs : List (Value × Option error)) (w' : World σ),
        runAccesses (perform env m) gimple id (List.replicate n Access.get) w = some (rs, w') ∧
        rs.length = n ∧
        (w'.deref gimple).values.lookup id = some f ∧
        countCalls f w.trace + n ≤ countCalls f w'.trace ∧
        ((∀ (w'' : World σ) (r : Value × World σ),
            (w''.deref gimple).values.lookup id = some f →
            invoke env m f (some gimple) w'' = some r →
            countCalls f r.2.trace = countCalls f w''.trace + 1) →
          countCalls f w'.trace = countCalls f w.trace + n) ∧
        ∀ k, k < n →
          ∃ (rk : List (Value × Option error)) (wk : World σ) (rf : Value × World σ),
            runAccesses (perform env m) gimple id (List.replicate k Access.get) w =
              some (rk, wk) ∧
            invoke env m f (some gimple) wk = some rf ∧
            rs[k]? = some (rf.1, none) := by
  induction n with
  | zero =>
    intro w hreg
    exact ⟨[], w, rfl, rfl, hreg, Nat.le_refl _, fun _ => rfl,
      fun k hk => absurd hk (Nat.not_lt_zero k)⟩
  | succ n ih =>
    intro w hreg
    obtain ⟨rf, hrf⟩ := hterm w hreg
    have hget : Access.get.run (perform env m) gimple id w = some ((rf.1, none), rf.2) := by
      rw [access_run_of_lookup _ gimple id .get f w hreg]
      show (invoke env m f (some gimple) w).map _ = _
      rw [hrf]
      rfl
    obtain ⟨rs, w', hrun, hlen, hreg', hge, hexact, hres⟩ := ih rf.2 (hkeep w rf hreg hrf)
    have hstep : ∀ (l : List Access), runAccesses (perform env m) gimple id (.get :: l) w =
        (runAccesses (perform env m) gimple id l rf.2).map
          (fun rs => ((rf.1, none) :: rs.1, rs.2)) :=
      fun l => runAccesses_cons _ gimple id .get l w _ hget
    have hfirst := countCalls_invoke_le env m f (some gimple) w rf hrf
    refine ⟨(rf.1, none) :: rs, w', ?_, by simp [hlen], hreg', by omega, ?_, ?_⟩
    · rw [List.replicate_succ, hstep, hrun]
      rfl
    · intro hquiet
      rw [hexact hquiet, hquiet w rf hreg hrf]
      omega
    · intro k hk
      cases k with
      | zero => exact ⟨[], w, rf, rfl, hrf, by simp⟩
      | succ j =>
        obtain ⟨rk, wk, rfk, hrk, hfk, hk'⟩ := hres j (by omega)
        refine ⟨(rf.1, none) :: rk, wk, rfk, ?_, hfk, ?_⟩
        · rw [List.replicate_succ, hstep, hrk]
          rfl
        · simpa using hk'

/-- C15, as stated, fails, in two ways.  In `unsetEnv`, `"x"` holds a
literal that removes `"x"` from the container when called: two
`GetService("x")` calls run it once, the second finds nothing and returns
the error.  In `reentrantEnv`, `"y"` holds literal 2 (not wrapped by
`Share`), which on its first run fetches itself with `Raw("y")` and calls
it: `"y"` still holds the literal after each call, and two `GetService("y")`
calls run it three times. -/
theorem C15_get_count_counterexample :
    ServiceExists 0 "x" (SetService 0 "x" (.lit 0) freshWorld) = true ∧
    (runAccesses (perform unsetEnv 3) 0 "x" [.get, .get]
      (SetService 0 "x" (.lit 0) freshWorld)).map
      (fun r => (r.1, countCalls (.lit 0) r.2.trace)) =
      some ([(Value.int 1, none), (Value.nil, some ⟨"There is no service with id x"⟩)], 1) ∧
    ServiceExists 0 "y" (SetService 0 "y" (.lit 2) freshWorld) = true ∧
    (runAccesses (perform reentrantEnv 4) 0 "y" [.get, .get]
      (SetService 0 "y" (.lit 2) freshWorld)).map
      (fun r => (r.1, countCalls (.lit 2) r.2.trace, (r.2.deref 0).values.lookup "y")) =
      some ([(Value.int 2, none), (Value.int 3, none)], 3, some (.lit 2)) ∧
    (runAccesses (perform reentrantEnv 4) 0 "y" [.get]
      (SetService 0 "y" (.lit 2) freshWorld)).map
      (fun r => (countCalls (.lit 2) r.2.trace, (r.2.deref 0).values.lookup "y")) =
      some (2, some (.lit 2)) := by
  decide

/-- C15, amended: let `id` hold `f`, and let every call of `f` on the
container, made while `id` holds `f`, return and leave `id` holding `f`.
Then `n` calls of `GetService(id)` in a row all return; there are `n`
results; the result of call number `k` is, with a nil error, what `f`
returns when called in the state the earlier `k` calls left; `f` has been
called at least `n` times, and exactly `n` times when no call of `f` leads
to a further call of `f`. -/
theorem C15_get_reinvokes (env : Env σ) (m : Nat) (gimple : Ptr) (id : String)
    (f : Callable) (n : Nat) (w : World σ)
    (hreg : (w.deref gimple).values.lookup id = some f)
    (hkeep : ∀ (w' : World σ) (r : Value × World σ),
      (w'.deref gimple).values.lookup id = some f →
      invoke env m f (some gimple) w' = some r →
      (r.2.deref gimple).values.lookup id = some f)
    (hterm : ∀ w' : World σ, (w'.deref gimple).values.lookup id = some f →
      ∃ r, invoke env m f (some gimple) w' = some r) :
    ∃ (rs : List (Value × Option error)) (w' : World σ),
      runAccesses (perform env m) gimple id (List.replicate n Access.get) w = some (rs, w') ∧
      rs.length = n ∧
      (w'.deref gimple).values.lookup id = some f ∧
      countCalls f w.trace + n ≤ countCalls f w'.trace ∧
      ((∀ (w'' : World σ) (r : Value × World σ),
          (w''.deref gimple).values.lookup id = some f →
          invoke env m f (some gimple) w'' = some r →
          countCalls f r.2.trace = countCalls f w''.trace + 1) →
        countCalls f w'.trace = countCalls f w.trace + n) ∧
      ∀ k, k < n →
        ∃ (rk : List (Value × Option error)) (wk : World σ) (rf : Value × World σ),
          runAccesses (perform env m) gimple id (List.replicate k Access.get) w =
            some (rk, wk) ∧
          invoke env m f (some gimple) wk = some rf ∧
          rs[k]? = some (rf.1, none) :=
  getService_repeated env m gimple id f hkeep hterm n w hreg

/-- Literal 2 of `testEnv` always returns, bumps the counter and changes no container. -/
theorem testEnv_lit2 (c : Option Ptr) (w : World Nat) :
    invoke testEnv 1 (.lit 2) c w =
      some (if w.store.vars = 0 then Value.nil else Value.int w.store.vars,
        { w.log (.call (.lit 2) c) with
          store := { w.store with vars := w.store.vars + 1 } }) := by
  rfl

/-- C15 amended, at a concrete input: literal 2 counts its calls; three
`GetService` calls return nil, 1 and 2, and the literal ran three times. -/
theorem C15_get_reinvokes_witness :
    (runAccesses (perform testEnv 1) 0 "test" (List.replicate 3 Access.get)
      (SetService 0 "test" (.lit 2) freshWorld)).map
      (fun r => (r.1, countCalls (.lit 2) r.2.trace)) =
      some ([(Value.nil, none), (Value.int 1, none), (Value.int 2, none)], 3) ∧
    ∃ (rs : List (Value × Option error)) (w' : World Nat),
      runAccesses (perform testEnv 1) 0 "test" (List.replicate 3 Access.get)
        (SetService 0 "test" (.lit 2) freshWorld) = some (rs, w') ∧
      rs.length = 3 ∧
      countCalls (.lit 2) (SetService 0 "test" (.lit 2) freshWorld).trace + 3 ≤
        countCalls (.lit 2) w'.trace :=
  ⟨by decide,
   let ⟨rs, w', h1, h2, _, h4, _⟩ :=
     C15_get_reinvokes testEnv 1 0 "test" (.lit 2) 3 (SetService 0 "test" (.lit 2) freshWorld)
       (by decide)
       (fun w' r hl hr => by
         rw [testEnv_lit2] at hr
         cases hr
         exact hl)
       (fun w' _ => ⟨_, testEnv_lit2 (some 0) w'⟩)
   ⟨rs, w', h1, h2, h4⟩⟩

/-! ## Memoization by `Share` -/

/-- After the closure of `Share` has filled its variable, no further steps
of the program change it: a later invocation returns the stored value and
records only itself. -/
theorem invoke_share_later (env : Env σ) (obj : Nat) (f : Callable) (v : Value)
    (hne : v ≠ Value.nil) (w2 : World σ) (hcell : w2.cells obj = v)
    (hnext : obj < w2.nextCell) (k : Nat) (acts : List (Act σ)) (w' : World σ)
    (hacts : runActs (perform env k) acts w2 = some w') (m : Nat) (c2 : Option Ptr) :
    invoke env (m + 1) (.share obj f) c2 w' = some (v, w'.log (.call (.share obj f) c2)) := by
  have hkeep := runActs_stable (stable_cell obj) (perform env k)
    (perform_stable (stable_cell obj) env k) acts w2 w' hacts
    (by rw [hcell]; exact hne) hnext
  have hcell' : w'.cells obj = v := by rw [hkeep.1, hcell]
  rw [invoke_share_cached env m obj f c2 w' (by rw [hcell']; exact hne), hcell']

theorem countCalls_log_share (f : Callable) (obj : Nat) (c : Option Ptr) (w : World σ) :
    countCalls f (w.log (.call (.share obj f) c)).trace = countCalls f w.trace := by
  simp only [World.log]
  rw [countCalls_append, countCalls_call_ne (share_ne_self _ _)]
  rfl

/-- Invocations of a filled closure of `Share`, one after another, all
return and never call the wrapped factory. -/
theorem runActs_cached_calls (env : Env σ) (m obj : Nat) (f : Callable)
    (cs : List (Option Ptr)) :
    ∀ w : World σ, w.cells obj ≠ Value.nil →
      ∃ w', runActs (perform env (m + 1)) (cs.map (Act.call (.share obj f))) w = some w' ∧
        w'.cells obj = w.cells obj ∧
        countCalls f w'.trace = countCalls f w.trace := by
  induction cs with
  | nil => intro w _; exact ⟨w, rfl, rfl, rfl⟩
  | cons c cs ih =>
    intro w hv
    have hcall : exec (perform env (m + 1)) (Act.call (.share obj f) c) w =
        some (w.cells obj, w.log (.call (.share obj f) c)) :=
      invoke_share_cached env m obj f c w hv
    obtain ⟨w', hrun, hcell, hcount⟩ := ih (w.log (.call (.share obj f) c)) hv
    refine ⟨w', ?_, hcell, ?_⟩
    · simp only [List.map_cons, runActs, hcall]
      exact hrun
    · rw [hcount, countCalls_log_share]

/-- C16, as stated, fails, in two ways.  Literal 0 of `reentrantEnv` calls
the shared closure `s` itself on its first run: the first invocation of
`s` returns 1, so do the later ones, but the literal has run twice, not
exactly once.  Literal 4 calls, on its first run, the closure of a second
`Share` of itself: invoking the first closure fills the variable of the
second, whose own first invocation then calls nothing. -/
theorem C16_share_memo_counterexample :
    (Share 0 (.lit 0) freshWorld).1 = .share 0 (.lit 0) ∧
    (invoke reentrantEnv 4 (.share 0 (.lit 0)) none (Share 0 (.lit 0) freshWorld).2).map
      (fun r => (r.1, countCalls (.lit 0) r.2.trace)) = some (Value.int 1, 2) ∧
    ((invoke reentrantEnv 4 (.share 0 (.lit 0)) none (Share 0 (.lit 0) freshWorld).2).bind
      (fun r => (invoke reentrantEnv 4 (.share 0 (.lit 0)) (some 0) r.2).bind
        (fun r2 => invoke reentrantEnv 4 (.share 0 (.lit 0)) none r2.2))).map
      (fun r => (r.1, countCalls (.lit 0) r.2.trace)) = some (Value.int 1, 2) ∧
    (Share 0 (.lit 4) (Share 0 (.lit 4) freshWorld).2).1 = .share 1 (.lit 4) ∧
    (invoke reentrantEnv 4 (.share 0 (.lit 4)) none
      (Share 0 (.lit 4) (Share 0 (.lit 4) freshWorld).2).2).map
      (fun r => (r.1, r.2.cells 1, countCalls (.lit 4) r.2.trace)) =
      some (Value.int 1, Value.int 1, 2) ∧
    ((invoke reentrantEnv 4 (.share 0 (.lit 4)) none
      (Share 0 (.lit 4) (Share 0 (.lit 4) freshWorld).2).2).bind
      (fun r => invoke reentrantEnv 4 (.share 1 (.lit 4)) none r.2)).map
      (fun r => (r.1, countCalls (.lit 4) r.2.trace)) = some (Value.int 1, 2) := by
  decide

/-- C16, amended: let `s` be the function returned by `Share(f)` and let its
first invocation, on `c1`, return a non-nil value `v`.  Then `v` is what the
call of `f` on `c1` made by `s` returned, and every call of `f` so far lies
within that call.  After any further steps of the program, an invocation
of `s` on any container argument returns `v` and records only the call of
`s`, so `f` is not called again; any number of invocations of `s` in a row
all return and leave the number of calls of `f` as it was.  A second
`Share(f)` yields a different closure; if the invocation of the first
records no call of a closure over the second's variable, the second is
still empty: its own first invocation is a call of `f`. -/
theorem C16_share_memo_in_closure (env : Env σ) (n : Nat) (gimple : Ptr) (f s : Callable)
    (c1 : Option Ptr) (w w1 w2 : World σ) (v : Value)
    (hs : Share gimple f w = (s, w1))
    (h1 : invoke env (n + 1) s c1 w1 = some (v, w2))
    (hne : v ≠ Value.nil) :
    (∃ wf : World σ, invoke env n f c1 (w1.log (.call s c1)) = some (v, wf) ∧
      countCalls f w2.trace = countCalls f wf.trace ∧
      countCalls f w1.trace + 1 ≤ countCalls f w2.trace ∧
      (countCalls f wf.trace = countCalls f (w1.log (.call s c1)).trace + 1 →
        countCalls f w2.trace = countCalls f w1.trace + 1)) ∧
    (∀ (k : Nat) (acts : List (Act σ)) (w' : World σ),
      runActs (perform env k) acts w2 = some w' →
      ∀ (m : Nat) (c2 : Option Ptr),
        invoke env (m + 1) s c2 w' = some (v, w'.log (.call s c2)) ∧
        countCalls f (w'.log (.call s c2)).trace = countCalls f w'.trace) ∧
    (∀ (m : Nat) (cs : List (Option Ptr)),
      ∃ w', runActs (perform env (m + 1)) (cs.map (Act.call s)) w2 = some w' ∧
        countCalls f w'.trace = countCalls f w2.trace) ∧
    (∀ (gimple' : Ptr) (s2 : Callable) (w1' : World σ) (k : Nat) (c : Option Ptr)
      (r : Value × World σ),
      Share gimple' f w1 = (s2, w1') →
      invoke env k s c w1' = some r →
      (∀ evs, r.2.trace = w1'.trace ++ evs → ∀ e ∈ evs, overSameVariable s2 e = false) →
      s2 ≠ s ∧
      ∀ (m : Nat) (c' : Option Ptr),
        (invoke env (m + 1) s2 c' r.2).map (fun x => x.1) =
          (invoke env m f c' (r.2.log (.call s2 c'))).map (fun x => x.1) ∧
        ∀ x, invoke env (m + 1) s2 c' r.2 = some x →
          countCalls f r.2.trace + 1 ≤ countCalls f x.2.trace) := by
  simp only [Share, Prod.mk.injEq] at hs
  obtain ⟨hs, hw1⟩ := hs
  subst hs
  have hcell : w1.cells w.nextCell = Value.nil := by
    rw [← hw1]; simp
  have hnext : w1.nextCell = w.nextCell + 1 := by
    rw [← hw1]
  rw [invoke_share_unset env n _ _ _ _ hcell] at h1
  cases hf : invoke env n f c1 (w1.log (.call (.share w.nextCell f) c1)) with
  | none => rw [hf] at h1; cases h1
  | some rf =>
    rw [hf] at h1
    simp only [Option.map_some', Option.some.injEq, Prod.mk.injEq] at h1
    obtain ⟨hv1, hw2⟩ := h1
    have hcell2 : w2.cells w.nextCell = v := by
      rw [← hw2, hv1]; simp
    have htr2 : w2.trace = rf.2.trace := by rw [← hw2]
    have hnext2 : w.nextCell < w2.nextCell := by
      have hmono := perform_stable (stable_cell_unless_called w.nextCell) env n _ _ rf hf
        (by show w.nextCell < w1.nextCell; omega)
      obtain ⟨_, _, hlt, _⟩ := hmono
      rw [← hw2]
      exact hlt
    have hge := countCalls_invoke_le env n f c1 _ rf hf
    rw [countCalls_log_share] at hge
    refine ⟨⟨rf.2, by rw [← hv1], by rw [htr2], by rw [htr2]; exact hge, ?_⟩, ?_, ?_, ?_⟩
    · intro hone
      rw [htr2, hone, countCalls_log_share]
    · intro k acts w' hacts m c2
      exact ⟨invoke_share_later env w.nextCell f v hne w2 hcell2 hnext2 k acts w' hacts m c2,
        countCalls_log_share f _ c2 w'⟩
    · intro m cs
      obtain ⟨w', hrun, _, hcount⟩ :=
        runActs_cached_calls env m w.nextCell f cs w2 (by rw [hcell2]; exact hne)
      exact ⟨w', hrun, hcount⟩
    · intro gimple' s2 w1' k c r hs2 hr hno
      simp only [Share, Prod.mk.injEq] at hs2
      obtain ⟨hs2, hw1'⟩ := hs2
      subst hs2
      have hne12 : Callable.share w1.nextCell f ≠ Callable.share w.nextCell f := by
        intro h
        injection h with h _
        omega
      have hcellB : w1'.cells w1.nextCell = Value.nil := by
        rw [← hw1']; simp
      have hnextB : w1.nextCell < w1'.nextCell := by
        rw [← hw1']
        exact Nat.lt_succ_self _
      obtain ⟨evs, hevs, _, hsame⟩ :=
        perform_stable (stable_cell_unless_called w1.nextCell) env k _ _ r hr hnextB
      have hcellB' : r.2.cells w1.nextCell = Value.nil := by
        rw [hsame ?_, hcellB]
        intro callback c' hm
        have := hno evs hevs _ hm
        simp [overSameVariable] at this
      refine ⟨hne12, ?_⟩
      intro m c'
      rw [invoke_share_unset env m _ _ _ _ hcellB']
      refine ⟨?_, ?_⟩
      · cases invoke env m f c' (r.2.log (.call (.share w1.nextCell f) c')) <;> rfl
      · intro x hx
        cases hf2 : invoke env m f c' (r.2.log (.call (.share w1.nextCell f) c')) with
        | none => rw [hf2] at hx; cases hx
        | some rf2 =>
          rw [hf2] at hx
          cases hx
          have := countCalls_invoke_le env m f c' _ rf2 hf2
          rw [countCalls_log_share] at this
          exact this

/-- C16 at the input of `TestShare`, where the closure is invoked with a nil
container: the value `math{1, 2}` comes back after other steps too, the
literal runs once over four invocations, and a second `Share` of the same
literal has its own variable. -/
theorem C16_share_memo_in_closure_witness :
    ((invoke testEnv 2 (.share 0 (.lit 0)) none (Share 0 (.lit 0) freshWorld).2).bind
      (fun r => (runActs (perform testEnv 2)
        [.new, .setService 1 "a" (.lit 2), .getService 1 "a", .share 1 (.lit 1)] r.2).bind
        (fun w' => invoke testEnv 2 (.share 0 (.lit 0)) (some 7) w'))).map
      (fun r => (r.1, countCalls (.lit 0) r.2.trace)) = some (Value.math ⟨1, 2⟩, 1) ∧
    ((invoke testEnv 2 (.share 0 (.lit 0)) none (Share 0 (.lit 0) freshWorld).2).bind
      (fun r => runActs (perform testEnv 2)
        ([none, some 0, none].map (Act.call (.share 0 (.lit 0)))) r.2)).map
      (fun w' => countCalls (.lit 0) w'.trace) = some 1 ∧
    (Share 0 (.lit 0) (Share 0 (.lit 0) freshWorld).2).1 = .share 1 (.lit 0) ∧
    ((invoke testEnv 2 (.share 0 (.lit 0)) none
      (Share 0 (.lit 0) (Share 0 (.lit 0) freshWorld).2).2).bind
      (fun r => invoke testEnv 2 (.share 1 (.lit 0)) none r.2)).map
      (fun r => (r.1, countCalls (.lit 0) r.2.trace)) = some (Value.math ⟨1, 2⟩, 2) ∧
    ∃ w2 : World Nat,
      invoke testEnv 2 (.share 0 (.lit 0)) none (Share 0 (.lit 0) freshWorld).2 =
        some (Value.math ⟨1, 2⟩, w2) ∧
      ∀ (k : Nat) (acts : List (Act Nat)) (w' : World Nat),
        runActs (perform testEnv k) acts w2 = some w' →
        ∀ (m : Nat) (c2 : Option Ptr),
          invoke testEnv (m + 1) (.share 0 (.lit 0)) c2 w' =
            some (Value.math ⟨1, 2⟩, w'.log (.call (.share 0 (.lit 0)) c2)) ∧
          countCalls (.lit 0) (w'.log (.call (.share 0 (.lit 0)) c2)).trace =
            countCalls (.lit 0) w'.trace :=
  ⟨by decide, by decide, by decide, by decide,
   ((invoke testEnv 2 (.share 0 (.lit 0)) none (Share 0 (.lit 0) freshWorld).2).get
      (by decide)).2, rfl,
   (C16_share_memo_in_closure testEnv 1 0 (.lit 0) (.share 0 (.lit 0)) none freshWorld
     (Share 0 (.lit 0) freshWorld).2 _ (Value.math ⟨1, 2⟩) rfl rfl (by decide)).2.1⟩

/-- Accesses to an identifier that holds a closure of `Share` whose variable
is filled all return the stored value with a nil error and never call the
wrapped factory. -/
theorem runAccesses_cached (env : Env σ) (m : Nat) (gimple : Ptr) (id : String) (obj : Nat)
    (f : Callable) (v : Value) (hne : v ≠ Value.nil) (accs : List Access) :
    ∀ w : World σ, (w.deref gimple).values.lookup id = some (.share obj f) →
      w.cells obj = v →
      ∃ (rs : List (Value × Option error)) (w' : World σ),
        runAccesses (perform env (m + 1)) gimple id accs w = some (rs, w') ∧
        (∀ r ∈ rs, r = (v, none)) ∧
        rs.length = accs.length ∧
        countCalls f w'.trace = countCalls f w.trace := by
  induction accs with
  | nil =>
    intro w _ _
    exact ⟨[], w, rfl, fun r hr => absurd hr (List.not_mem_nil r), rfl, rfl⟩
  | cons a accs ih =>
    intro w hl hcell
    have hrun : a.run (perform env (m + 1)) gimple id w =
        some ((v, none), w.log (.call (.share obj f) (a.context gimple))) := by
      rw [access_run_of_lookup _ gimple id a _ w hl]
      show (invoke env (m + 1) (.share obj f) (a.context gimple) w).map _ = _
      rw [invoke_share_cached env m obj f _ w (by rw [hcell]; exact hne), hcell]
      rfl
    obtain ⟨rs, w', hrest, hall, hlen, hcount⟩ :=
      ih (w.log (.call (.share obj f) (a.context gimple))) hl hcell
    refine ⟨(v, none) :: rs, w', ?_, ?_, by simp [hlen], ?_⟩
    · rw [runAccesses_cons _ gimple id a accs w _ hrun, hrest]
      rfl
    · intro r hr
      rcases List.mem_cons.1 hr with h | h
      · exact h
      · exact hall r h
    · rw [hcount, countCalls_log_share]

/-- C17, as stated, fails, in two ways.  In `unsetEnv` the literal returns 1
(non-nil) and removes `"x"` from the container when called: after
`SetService("x", Share(f))` the first `GetService("x")` returns 1, the
second returns nil and the error, and so does `Raw("x")`.  In
`reentrantEnv` literal 1 calls `GetService("x")` itself on its first run:
three `GetService("x")` calls all return 2 and `"x"` still holds the shared
factory, but the literal has run twice, not exactly once. -/
theorem C17_memo_visible_counterexample :
    (Share 0 (.lit 0) freshWorld).1 = .share 0 (.lit 0) ∧
    (runAccesses (perform unsetEnv 3) 0 "x" [.get, .get, .raw none]
      (SetService 0 "x" (.share 0 (.lit 0)) (Share 0 (.lit 0) freshWorld).2)).map
      (fun r => r.1) =
      some [(Value.int 1, none),
       (Value.nil, some ⟨"There is no service with id x"⟩),
       (Value.nil, some ⟨"There is no service with id x"⟩)] ∧
    (Share 0 (.lit 1) freshWorld).1 = .share 0 (.lit 1) ∧
    (runAccesses (perform reentrantEnv 5) 0 "x" [.get, .get, .get]
      (SetService 0 "x" (.share 0 (.lit 1)) (Share 0 (.lit 1) freshWorld).2)).map
      (fun r => (r.1, countCalls (.lit 1) r.2.trace, (r.2.deref 0).values.lookup "x")) =
      some ([(Value.int 2, none), (Value.int 2, none), (Value.int 2, none)], 2,
        some (.share 0 (.lit 1))) := by
  decide

/-- C17, amended: let `s` be the function returned by `Share(f)`, registered
with `SetService(id, s)`.  If the first access to `id` (by `GetService`, or
by `Raw` and a call of what it returns) yields a non-nil value and leaves
`id` holding `s`, then the error is nil, the value is what the call of `f`
made by `s` returned, and every call of `f` so far lies within that call
(`f` was called exactly once when that call led to no further call of
`f`); any number of later accesses of either kind all return, each with
that same value and a nil error, and none of them calls `f`. -/
theorem C17_memo_visible_through_container (env : Env σ) (n : Nat) (gimple gimple0 : Ptr)
    (id : String) (f s : Callable) (a0 : Access) (w w1 w3 : World σ)
    (r0 : Value × Option error)
    (hs : Share gimple0 f w = (s, w1))
    (h1 : a0.run (perform env (n + 1)) gimple id (SetService gimple id s w1) = some (r0, w3))
    (hne : r0.1 ≠ Value.nil)
    (hkeep : (w3.deref gimple).values.lookup id = some s) :
    r0.2 = none ∧
    (∃ wf : World σ,
      invoke env n f (a0.context gimple)
        ((SetService gimple id s w1).log (.call s (a0.context gimple))) = some (r0.1, wf) ∧
      countCalls f w3.trace = countCalls f wf.trace ∧
      countCalls f w1.trace + 1 ≤ countCalls f w3.trace ∧
      (countCalls f wf.trace = countCalls f w1.trace + 1 →
        countCalls f w3.trace = countCalls f w1.trace + 1)) ∧
    ∀ (m : Nat) (accs : List Access),
      ∃ (rs : List (Value × Option error)) (w' : World σ),
        runAccesses (perform env (m + 1)) gimple id accs w3 = some (rs, w') ∧
        (∀ r ∈ rs, r = r0) ∧
        rs.length = accs.length ∧
        countCalls f w'.trace = countCalls f w3.trace := by
  simp only [Share, Prod.mk.injEq] at hs
  obtain ⟨hs, hw1⟩ := hs
  subst hs
  have hl : ((SetService gimple id (.share w.nextCell f) w1).deref gimple).values.lookup id =
      some (.share w.nextCell f) := lookup_setService_self _ _ _ _
  have hcell : (SetService gimple id (.share w.nextCell f) w1).cells w.nextCell = Value.nil := by
    show w1.cells w.nextCell = Value.nil
    rw [← hw1]; simp
  rw [access_run_of_lookup _ gimple id a0 _ _ hl] at h1
  have h1' : (invoke env (n + 1) (.share w.nextCell f) (a0.context gimple)
      (SetService gimple id (.share w.nextCell f) w1)).map (fun r => ((r.1, none), r.2)) =
      some (r0, w3) := h1
  rw [invoke_share_unset env n _ _ _ _ hcell] at h1'
  cases hf : invoke env n f (a0.context gimple)
      ((SetService gimple id (.share w.nextCell f) w1).log
        (.call (.share w.nextCell f) (a0.context gimple))) with
  | none => rw [hf] at h1'; cases h1'
  | some rf =>
    rw [hf] at h1'
    simp only [Option.map_some', Option.some.injEq, Prod.mk.injEq] at h1'
    obtain ⟨hr0, hw3⟩ := h1'
    have hv : r0.1 = rf.1 := by rw [← hr0]
    have he : r0.2 = none := by rw [← hr0]
    have hcell3 : w3.cells w.nextCell = r0.1 := by
      rw [← hw3, hv]; simp
    have htr3 : w3.trace = rf.2.trace := by rw [← hw3]
    have hge := countCalls_invoke_le env n f _ _ rf hf
    rw [countCalls_log_share] at hge
    have hset : countCalls f (SetService gimple id (.share w.nextCell f) w1).trace =
        countCalls f w1.trace := rfl
    rw [hset] at hge
    refine ⟨he, ⟨rf.2, by rw [hv], by rw [htr3], by rw [htr3]; exact hge, ?_⟩, ?_⟩
    · intro hone
      rw [htr3, hone]
    · intro m accs
      obtain ⟨rs, w', hrun, hall, hlen, hcount⟩ :=
        runAccesses_cached env m gimple id w.nextCell f r0.1 hne accs w3 hkeep hcell3
      refine ⟨rs, w', hrun, ?_, hlen, hcount⟩
      intro r hr
      rw [hall r hr, ← he]

/-- C17 amended, at a concrete input: `"x"` holds the shared literal that
returns `math{1, 2}`; the later accesses return it and the literal ran once. -/
theorem C17_memo_visible_through_container_witness :
    (runAccesses (perform testEnv 2) 0 "x" [.get, .get, .raw none, .get]
      (SetService 0 "x" (.share 0 (.lit 0)) (Share 0 (.lit 0) freshWorld).2)).map
      (fun r => (r.1, countCalls (.lit 0) r.2.trace)) =
      some ([(Value.math ⟨1, 2⟩, none), (Value.math ⟨1, 2⟩, none),
       (Value.math ⟨1, 2⟩, none), (Value.math ⟨1, 2⟩, none)], 1) ∧
    ∃ w3 : World Nat,
      Access.get.run (perform testEnv 2) 0 "x"
        (SetService 0 "x" (.share 0 (.lit 0)) (Share 0 (.lit 0) freshWorld).2) =
        some ((Value.math ⟨1, 2⟩, none), w3) ∧
      ∀ (m : Nat) (accs : List Access),
        ∃ (rs : List (Value × Option error)) (w' : World Nat),
          runAccesses (perform testEnv (m + 1)) 0 "x" accs w3 = some (rs, w') ∧
          (∀ r ∈ rs, r = (Value.math ⟨1, 2⟩, none)) ∧
          rs.length = accs.length ∧
          countCalls (.lit 0) w'.trace = countCalls (.lit 0) w3.trace :=
  ⟨by decide,
   ((Access.get.run (perform testEnv 2) 0 "x"
      (SetService 0 "x" (.share 0 (.lit 0)) (Share 0 (.lit 0) freshWorld).2)).get
      (by decide)).2, rfl,
   (C17_memo_visible_through_container testEnv 1 0 0 "x" (.lit 0) (.share 0 (.lit 0))
     Access.get freshWorld (Share 0 (.lit 0) freshWorld).2 _
     (Value.math ⟨1, 2⟩, none) rfl rfl (by decide) (by decide)).2.2⟩

/-! ## What `Extend` captures -/

/-- C19, as stated, fails: literal 3 of `reentrantEnv` calls
`GetService("m")` itself on its first run.  With the extension of `"m"`
installed under `"m"`, one `GetService("m")` returns `math{3, 10}` but runs
the extension, the literal and the callback twice each. -/
theorem C19_extend_counterexample :
    (Extend 0 "m" (.lit 0) (SetService 0 "m" (.lit 3) freshWorld)).1 =
      (some (.extender (.lit 3) (.lit 0)), none) ∧
    (GetService (perform reentrantEnv 6) 0 "m"
      (SetService 0 "m" (.extender (.lit 3) (.lit 0))
        (SetService 0 "m" (.lit 3) freshWorld))).map
      (fun r => (r.1, countCalls (.extender (.lit 3) (.lit 0)) r.2.trace,
        countCalls (.lit 3) r.2.trace, countExt (.lit 0) r.2.trace)) =
      some ((Value.math ⟨3, 10⟩, none), 2, 2, 2) := by
  decide

/-- C19, amended: when `id` holds `f`, the function `e` returned by
`Extend(id, ext)` calls `f` and then `ext` in every state, whatever `id`
holds by then: so also after a later `SetService(id, g)` or
`UnsetService(id)`.  After `SetService(id, e)`, `GetService(id)` is that
call on the container, with a nil error; when it returns, the trace is the
call of `e`, the call of `f` with what it led to, and the call of `ext` on
the value of `f` with what it led to: the extension itself calls `f` once
and `ext` once and never itself, and `e`, `f` and `ext` are called once
each in all unless what `f` or `ext` led to contains further calls of them. -/
theorem C19_extend_captures_factory (env : Env σ) (gimple : Ptr) (id : String)
    (f g : Callable) (ext : ExtendCallable) (w : World σ)
    (hreg : (w.deref gimple).values.lookup id = some f) :
    ∃ e : Callable,
      (Extend gimple id ext w).1 = (some e, none) ∧
      (∀ (n : Nat) (c : Option Ptr) (w' : World σ),
        invoke env (n + 1) e c w' =
          (invoke env n f c (w'.log (.call e c))).bind
            (fun r => invokeExt env n ext r.1 c r.2)) ∧
      (∀ (n : Nat) (c : Option Ptr),
        invoke env (n + 1) e c (SetService gimple id g w) =
          (invoke env n f c ((SetService gimple id g w).log (.call e c))).bind
            (fun r => invokeExt env n ext r.1 c r.2)) ∧
      (∀ (n : Nat) (c : Option Ptr),
        invoke env (n + 1) e c (UnsetService gimple id w) =
          (invoke env n f c ((UnsetService gimple id w).log (.call e c))).bind
            (fun r => invokeExt env n ext r.1 c r.2)) ∧
      (∀ n : Nat,
        GetService (perform env (n + 1)) gimple id (SetService gimple id e w) =
          ((invoke env n f (some gimple)
              ((SetService gimple id e w).log (.call e (some gimple)))).bind
            (fun r => invokeExt env n ext r.1 (some gimple) r.2)).map
            (fun r => ((r.1, none), r.2))) ∧
      ∀ (n : Nat) (r : (Value × Option error) × World σ),
        GetService (perform env (n + 1)) gimple id (SetService gimple id e w) = some r →
        ∃ (vf : Value) (wf : World σ) (during after : List Event),
          invoke env n f (some gimple)
            ((SetService gimple id e w).log (.call e (some gimple))) = some (vf, wf) ∧
          invokeExt env n ext vf (some gimple) wf = some (r.1.1, r.2) ∧
          r.1.2 = none ∧
          r.2.trace =
            w.trace ++ [Event.call e (some gimple)] ++ Event.call f (some gimple) :: during ++
              Event.callExt ext vf (some gimple) :: after ∧
          countCalls e r.2.trace =
            countCalls e w.trace + 1 + (countCalls e during + countCalls e after) ∧
          countCalls f r.2.trace =
            countCalls f w.trace + 1 + (countCalls f during + countCalls f after) ∧
          countExt ext r.2.trace =
            countExt ext w.trace + 1 + (countExt ext during + countExt ext after) := by
  have hinv : ∀ (n : Nat) (c : Option Ptr) (w' : World σ),
      invoke env (n + 1) (.extender f ext) c w' =
        (invoke env n f c (w'.log (.call (.extender f ext) c))).bind
          (fun r => invokeExt env n ext r.1 c r.2) :=
    fun n c w' => invoke_extender env n f ext c w'
  have hget : ∀ n : Nat,
      GetService (perform env (n + 1)) gimple id (SetService gimple id (.extender f ext) w) =
        ((invoke env n f (some gimple)
            ((SetService gimple id (.extender f ext) w).log
              (.call (.extender f ext) (some gimple)))).bind
          (fun r => invokeExt env n ext r.1 (some gimple) r.2)).map
          (fun r => ((r.1, none), r.2)) := by
    intro n
    rw [getService_setService, hinv]
  refine ⟨.extender f ext, by simp [Extend, hreg], hinv, fun n c => hinv n c _,
    fun n c => hinv n c _, hget, ?_⟩
  intro n r hr
  rw [hget] at hr
  cases hf : invoke env n f (some gimple)
      ((SetService gimple id (.extender f ext) w).log
        (.call (.extender f ext) (some gimple))) with
  | none => rw [hf] at hr; cases hr
  | some rf =>
    rw [hf] at hr
    cases hx : invokeExt env n ext rf.1 (some gimple) rf.2 with
    | none =>
      simp only [Option.some_bind, hx] at hr
      cases hr
    | some rx =>
      simp only [Option.some_bind, hx, Option.map_some', Option.some.injEq] at hr
      subst hr
      obtain ⟨during, hd⟩ := invoke_trace env n f _ _ rf hf
      obtain ⟨after, ha⟩ := invokeExt_trace env n ext rf.1 _ rf.2 rx hx
      have htrace : rx.2.trace =
          w.trace ++ [Event.call (.extender f ext) (some gimple)] ++
            Event.call f (some gimple) :: during ++
            Event.callExt ext rf.1 (some gimple) :: after := by
        rw [ha, hd]
        simp [World.log, SetService, World.setValues]
      refine ⟨rf.1, rf.2, during, after, rfl, hx, rfl, htrace, ?_, ?_, ?_⟩
      · simp only [htrace, countCalls_append]
        rw [countCalls_cons (.extender f ext) (Event.call f (some gimple)),
          countCalls_cons (.extender f ext) (Event.callExt ext rf.1 (some gimple)),
          countCalls_call_self, countCalls_call_ne (extender_ne_self f ext).symm,
          countCalls_callExt]
        omega
      · simp only [htrace, countCalls_append]
        rw [countCalls_cons f (Event.call f (some gimple)),
          countCalls_cons f (Event.callExt ext rf.1 (some gimple)),
          countCalls_call_self, countCalls_call_ne (extender_ne_self f ext),
          countCalls_callExt]
        omega
      · simp only [htrace, countExt_append]
        rw [countExt_cons ext (Event.call f (some gimple)),
          countExt_cons ext (Event.callExt ext rf.1 (some gimple)),
          countExt_callExt_self, countExt_call, countExt_call]
        omega

/-- C19 at the input of `TestExtend`, with the extension installed under
the same identifier: `GetService` returns `math{3, 10}` and the trace shows
one call each of the extension, the literal and the callback; the
extension gives the same after the identifier is overwritten or removed. -/
theorem C19_extend_captures_factory_witness :
    (GetService (perform testEnv 3) 0 "math-service"
      (SetService 0 "math-service" (.extender (.lit 0) (.lit 0))
        (SetService 0 "math-service" (.lit 0) freshWorld))).map (fun r => (r.1, r.2.trace)) =
      some ((Value.math ⟨3, 10⟩, none),
        [.call (.extender (.lit 0) (.lit 0)) (some 0), .call (.lit 0) (some 0),
         .callExt (.lit 0) (Value.math ⟨1, 2⟩) (some 0)]) ∧
    (invoke testEnv 2 (.extender (.lit 0) (.lit 0)) (some 0)
      (SetService 0 "math-service" (.lit 1)
        (SetService 0 "math-service" (.lit 0) freshWorld))).map (fun r => r.1) =
      some (Value.math ⟨3, 10⟩) ∧
    (invoke testEnv 2 (.extender (.lit 0) (.lit 0)) (some 0)
      (UnsetService 0 "math-service"
        (SetService 0 "math-service" (.lit 0) freshWorld))).map (fun r => r.1) =
      some (Value.math ⟨3, 10⟩) ∧
    ∃ e : Callable,
      (Extend 0 "math-service" (.lit 0) (SetService 0 "math-service" (.lit 0) freshWorld)).1 =
        (some e, none) ∧
      ∀ (n : Nat) (c : Option Ptr) (w' : World Nat),
        invoke testEnv (n + 1) e c w' =
          (invoke testEnv n (.lit 0) c (w'.log (.call e c))).bind
            (fun r => invokeExt testEnv n (.lit 0) r.1 c r.2) :=
  ⟨by decide, by decide, by decide,
   (C19_extend_captures_factory testEnv 0 "math-service" (.lit 0) (.lit 1) (.lit 0)
     (SetService 0 "math-service" (.lit 0) freshWorld) (by decide)).imp
     (fun _ h => ⟨h.1, h.2.1⟩)⟩

end gimple
